import Mathlib

/-!
# cs6610 rendering demos: the colour fader and the input rig controllers

A shallow embedding of the pure numeric parts of the eight course projects
under `misc/cs6610`: the `color_fader` utility of project 1, the pointer and
keyboard callbacks that drive the camera and light rigs of projects 2, 5, 6, 7
and 8, the initial values `main` gives those rigs, the argument-count check at
the top of each `main`, and the matrices of the per-frame transform pipeline
(position, normal, camera, light, shadow and texture transforms).

Conventions of the embedding.

* In the rig controllers and the matrices `float` values are real numbers and
  rounding is not modelled. `color_fader` is given twice: `color_fader` in
  exact arithmetic (`M_PI` is `Real.pi`, no rounding), and
  `color_fader_float` with every rounding of the source (`to_float`,
  `to_double`, `M_PI` the `double` nearest to pi). Their `int` parts are the
  same and their values differ by at most `10^-6`
  (`color_fader_float_near`); statements about exact values at the top and at
  the end of the active phase are made on `color_fader_float`.
* `int` arithmetic is arithmetic on `Int`. In `color_fader`, whose arguments
  are arbitrary `int`s, an operation that leaves the 32-bit range or divides
  by zero (the C++ standard leaves both undefined) returns `none`. The
  tessellation level of project 8 is a plain `Int`: from the value `main`
  gives it, it never exceeds 64, so its doubling cannot overflow.
* The globals a callback reads and writes are the fields of a `State`
  structure; a callback is a function from the event and the state before to
  the state after.
* What a callback asks the window (`glfwGetMouseButton`, `glfwGetKey`) is part
  of the event it is given.
* The matrix helpers of the cyCodeBase header `cyMatrix.h` are not among the
  sources; they are the standard homogeneous matrices on column vectors, each
  marked as modelled where it is defined.
-/

/-! ## C integer arithmetic -/

/-- Smallest value of a 32-bit `int`. -/
def INT_MIN : Int := -2147483648

/-- Largest value of a 32-bit `int`. -/
def INT_MAX : Int := 2147483647

/-- Addition of two `int`s: undefined when the sum is not representable. -/
def int_add (a b : Int) : Option Int :=
  if INT_MIN ≤ a + b ∧ a + b ≤ INT_MAX then some (a + b) else none

/-- Multiplication of two `int`s: undefined when the product is not
representable. -/
def int_mul (a b : Int) : Option Int :=
  if INT_MIN ≤ a * b ∧ a * b ≤ INT_MAX then some (a * b) else none

/-- The `/` operator on `int`: truncates toward zero, undefined for a zero
divisor and when the quotient is not representable. -/
def int_div (a b : Int) : Option Int :=
  if b = 0 ∨ (a = INT_MIN ∧ b = -1) then none else some (Int.tdiv a b)

/-- The `%` operator on `int`: the remainder has the sign of the dividend,
undefined exactly where `/` is. -/
def int_rem (a b : Int) : Option Int :=
  if b = 0 ∨ (a = INT_MIN ∧ b = -1) then none else some (Int.tmod a b)

/-! ## Project 1: `color_fader` -/

/-- The function `color_fader` of `project1/main.cpp` in exact arithmetic: the
`int` operations are the source's, the `float` and `double` operations are
done on real numbers without rounding, `M_PI` is `Real.pi`. The same function
with its roundings is `color_fader_float`. -/
noncomputable def color_fader (time offset period : Int) : Option ℝ := do
  let sum ← int_add time offset
  let periodic_time ← int_rem sum period
  let doubled ← int_mul 2 period
  let phase_section ← int_div doubled 3
  if 0 < periodic_time ∧ periodic_time ≤ phase_section then
    let period_completion : ℝ := (periodic_time : ℝ) / (period : ℝ)
    let radians : ℝ := (3 * Real.pi / 2) * period_completion
    return Real.sin radians
  else
    return 0

/-- The three `int` operations of `color_fader` that can overflow stay in
range: the sum `time + offset`, the product `2 * period`, and the remainder is
not `INT_MIN % -1`. -/
def no_int_overflow (time offset period : Int) : Prop :=
  (INT_MIN ≤ time + offset ∧ time + offset ≤ INT_MAX) ∧
  (INT_MIN ≤ 2 * period ∧ 2 * period ≤ INT_MAX) ∧
  ¬ (time + offset = INT_MIN ∧ period = -1)

instance (time offset period : Int) : Decidable (no_int_overflow time offset period) := by
  unfold no_int_overflow; infer_instance

/-! ## Binary floating point and `color_fader` with its roundings -/

/-- The integer nearest to `x`, the even one of the two when `x` lies half way
between two integers. -/
noncomputable def round_half_even (x : ℝ) : Int :=
  if x - (Int.floor x : ℝ) < 1 / 2 then Int.floor x
  else if 1 / 2 < x - (Int.floor x : ℝ) then Int.floor x + 1
  else if Int.floor x % 2 = 0 then Int.floor x
  else Int.floor x + 1

/-- Rounding of a real number to the nearest binary floating-point number with
`prec` significant bits, ties to even (the IEEE 754 default rounding):
`Int.log 2 |x|` is the exponent `e` with `2^e <= |x| < 2^(e+1)` and the
spacing of the format there is `2^(e - prec + 1)`. The exponent has no limit;
the numbers `color_fader` meets lie between `2^-31` and `2^31` in size, far
from overflow and from the subnormal range of either format. -/
noncomputable def round_nearest (prec : Nat) (x : ℝ) : ℝ :=
  if x = 0 then 0
  else
    (round_half_even (x / (2 : ℝ) ^ (Int.log 2 |x| - (prec : Int) + 1)) : ℝ) *
      (2 : ℝ) ^ (Int.log 2 |x| - (prec : Int) + 1)

/-- Rounding to `float` (binary32, 24 significant bits). -/
noncomputable def to_float (x : ℝ) : ℝ := round_nearest 24 x

/-- Rounding to `double` (binary64, 53 significant bits). -/
noncomputable def to_double (x : ℝ) : ℝ := round_nearest 53 x

/-- The constant `M_PI` of the C library: the `double` nearest to pi,
`884279719003555 / 2^48` (`M_PI_nearest_pi`). -/
noncomputable def M_PI : ℝ := 884279719003555 / 2 ^ 48

/-- The angle `radians` that the source computes for periodic time `pt` of
period `period`, with every rounding of `main.cpp` lines 14 and 15. -/
noncomputable def float_radians (pt period : Int) : ℝ :=
  to_float (to_double (to_double (to_double (3 * M_PI) / 2) *
    to_float (to_float (pt : ℝ) / to_float (period : ℝ))))

/-- The function `color_fader` of `project1/main.cpp` with every rounding its
types ask for. The two casts and the quotient are `float`; `3 * M_PI / 2` and
its product with the promoted `period_completion` are `double`; the
assignment to `radians` rounds to `float`. The source includes only `<cmath>`
and calls the unqualified `sin`, the C library's `double sin(double)`: the
argument is promoted (exactly), the library result is taken to be the
correctly rounded `double`, and `return` converts it to `float`. -/
noncomputable def color_fader_float (time offset period : Int) : Option ℝ := do
  let sum ← int_add time offset
  let periodic_time ← int_rem sum period
  let doubled ← int_mul 2 period
  let phase_section ← int_div doubled 3
  if 0 < periodic_time ∧ periodic_time ≤ phase_section then
    let period_completion : ℝ :=
      to_float (to_float (periodic_time : ℝ) / to_float (period : ℝ))
    let radians : ℝ :=
      to_float (to_double (to_double (to_double (3 * M_PI) / 2) * period_completion))
    return to_float (to_double (Real.sin radians))
  else
    return 0

/-! ## Shared input and geometry types -/

/-- A cursor-position event as a `mouse_callback` sees it: the position GLFW
passes in, and what the window answers when the callback queries the two mouse
buttons (`glfwGetMouseButton`) and the two modifier keys (`glfwGetKey`). -/
structure MouseEvent where
  x : ℝ
  y : ℝ
  left : Bool
  right : Bool
  left_control : Bool
  left_alt : Bool

/-- The arguments GLFW passes to a `key_callback`. -/
structure KeyEvent where
  key : Int
  scancode : Int
  action : Int
  mods : Int

/-- Value of `GLFW_PRESS` in the GLFW header. -/
def GLFW_PRESS : Int := 1

/-- Value of `GLFW_KEY_SPACE` in the GLFW header. -/
def GLFW_KEY_SPACE : Int := 32

/-- Value of `GLFW_KEY_ESCAPE` in the GLFW header. -/
def GLFW_KEY_ESCAPE : Int := 256

/-- Value of `GLFW_KEY_RIGHT` in the GLFW header. -/
def GLFW_KEY_RIGHT : Int := 262

/-- Value of `GLFW_KEY_LEFT` in the GLFW header. -/
def GLFW_KEY_LEFT : Int := 263

/-- Value of `GLFW_KEY_F6` in the GLFW header. -/
def GLFW_KEY_F6 : Int := 295

/-- A `cy::Vec3f`; the source indexes its components as `[0]`, `[1]`, `[2]`. -/
structure Vec3f where
  x : ℝ
  y : ℝ
  z : ℝ

/-- The Euclidean length `cy::Vec3f::Length`. -/
noncomputable def Vec3f.Length (v : Vec3f) : ℝ :=
  Real.sqrt (v.x * v.x + v.y * v.y + v.z * v.z)

/-! ## Project 2: `transformations.cpp` -/

namespace Project2

/-- The macro `SENSITIVITY` of project 2. -/
def SENSITIVITY : ℝ := 10

/-- The globals of project 2 that the callbacks touch. -/
structure State where
  prev_x : ℝ
  prev_y : ℝ
  camera_rotation_z : ℝ
  camera_rotation_x : ℝ
  camera_distance : ℝ
  perspective : Bool

/-- The function `mouse_callback` of project 2. -/
noncomputable def mouse_callback (e : MouseEvent) (s : State) : State :=
  let s : State :=
    if e.left then
      let s : State := { s with
        camera_rotation_z := s.camera_rotation_z + (e.x - s.prev_x) * (SENSITIVITY / 100) }
      let s : State := { s with
        camera_rotation_x := s.camera_rotation_x + (e.y - s.prev_y) * (SENSITIVITY / 100) }
      if s.camera_rotation_x > 0 then
        { s with camera_rotation_x := 0 }
      else if s.camera_rotation_x < -Real.pi then
        { s with camera_rotation_x := -Real.pi }
      else s
    else if e.right then
      let s : State := { s with
        camera_distance := s.camera_distance + (e.y - s.prev_y) * (SENSITIVITY / 100) }
      if s.camera_distance < 0.05 then
        { s with camera_distance := 0.05 }
      else s
    else s
  { s with prev_x := e.x, prev_y := e.y }

/-- The value `max_box_dimension` that `main` computes from the bounding box
of the mesh (`abs` is the floating-point absolute value); the middle term adds
`abs(min[1])` to itself, as the source does. -/
noncomputable def max_box_dimension (min max : Vec3f) : ℝ :=
  Max.max (|min.x| + |max.x|) (Max.max (|min.y| + |min.y|) (|min.z| + |max.z|))

/-- The globals when `main` enters the render loop: statics are zero
(`perspective` is `true`) and `camera_distance` is `max_box_dimension`. -/
noncomputable def main_init (min max : Vec3f) : State :=
  { prev_x := 0, prev_y := 0, camera_rotation_z := 0, camera_rotation_x := 0,
    camera_distance := max_box_dimension min max, perspective := true }

/-- The state after a sequence of `mouse_callback` events, oldest first. -/
noncomputable def run (es : List MouseEvent) (s : State) : State :=
  es.foldl (fun s e => mouse_callback e s) s

end Project2

/-! ## Project 5: `render_buffers.cpp` -/

namespace Project5

/-- The macro `SENSITIVITY` of project 5. -/
def SENSITIVITY : ℝ := 1

/-- The globals of project 5 that the pointer callback touches. -/
structure State where
  prev_mouse_x : ℝ
  prev_mouse_y : ℝ
  object_camera_rotation_x : ℝ
  object_camera_rotation_z : ℝ
  object_camera_distance : ℝ
  plane_camera_rotation_x : ℝ
  plane_camera_rotation_z : ℝ
  plane_camera_distance : ℝ
  light_rotation_x : ℝ
  light_rotation_z : ℝ

/-- The function `move_rotation`: the two pointees go in and come out as a
pair `(x_rotation, z_rotation)`. -/
noncomputable def move_rotation (x_rotation z_rotation dx dy : ℝ) : ℝ × ℝ :=
  let x_rotation := x_rotation + dy * (SENSITIVITY / 100)
  let z_rotation := z_rotation + dx * (SENSITIVITY / 100)
  if x_rotation > 0 then
    (0, z_rotation)
  else if x_rotation < -Real.pi then
    (-Real.pi, z_rotation)
  else
    (x_rotation, z_rotation)

/-- The function `move_distance`: the pointee goes in and comes out. -/
noncomputable def move_distance (distance dy : ℝ) : ℝ :=
  let distance := distance + dy * (SENSITIVITY / 10)
  if distance < 0.5 then 0.5 else distance

/-- The function `mouse_callback` of project 5. -/
noncomputable def mouse_callback (e : MouseEvent) (s : State) : State :=
  let dx : ℝ := e.x - s.prev_mouse_x
  let dy : ℝ := e.y - s.prev_mouse_y
  let s : State :=
    if e.left then
      if e.left_alt then
        let r := move_rotation s.plane_camera_rotation_x s.plane_camera_rotation_z dx dy
        { s with plane_camera_rotation_x := r.1, plane_camera_rotation_z := r.2 }
      else if e.left_control then
        let r := move_rotation s.light_rotation_x s.light_rotation_z dx dy
        { s with light_rotation_x := r.1, light_rotation_z := r.2 }
      else
        let r := move_rotation s.object_camera_rotation_x s.object_camera_rotation_z dx dy
        { s with object_camera_rotation_x := r.1, object_camera_rotation_z := r.2 }
    else if e.right then
      if e.left_alt then
        { s with plane_camera_distance := move_distance s.plane_camera_distance dy }
      else
        { s with object_camera_distance := move_distance s.object_camera_distance dy }
    else s
  { s with prev_mouse_x := e.x, prev_mouse_y := e.y }

/-- The globals when `main` enters the render loop: statics are zero, the
object camera sits at half the bounds diagonal and the plane camera at 3. -/
noncomputable def main_init (min max : Vec3f) : State :=
  let bounds_diagonal : ℝ := min.Length + max.Length
  { prev_mouse_x := 0, prev_mouse_y := 0,
    object_camera_rotation_x := 0, object_camera_rotation_z := 0,
    object_camera_distance := bounds_diagonal / 2,
    plane_camera_rotation_x := 0, plane_camera_rotation_z := 0,
    plane_camera_distance := 3,
    light_rotation_x := 0, light_rotation_z := 0 }

/-- The state after a sequence of `mouse_callback` events, oldest first. -/
noncomputable def run (es : List MouseEvent) (s : State) : State :=
  es.foldl (fun s e => mouse_callback e s) s

end Project5

/-! ## Project 6: `environment_mapping.cpp` -/

namespace Project6

/-- The macro `SENSITIVITY` of project 6. -/
def SENSITIVITY : ℝ := 1

/-- The globals of project 6 that the pointer callback touches. -/
structure State where
  prev_mouse_x : ℝ
  prev_mouse_y : ℝ
  camera_rotation_x : ℝ
  camera_rotation_y : ℝ
  camera_distance : ℝ

/-- The function `mouse_callback` of project 6. -/
noncomputable def mouse_callback (e : MouseEvent) (s : State) : State :=
  let dx : ℝ := e.x - s.prev_mouse_x
  let dy : ℝ := e.y - s.prev_mouse_y
  let s : State :=
    if e.left then
      let s : State := { s with camera_rotation_x := s.camera_rotation_x + dy * (SENSITIVITY / 100) }
      let s : State := { s with camera_rotation_y := s.camera_rotation_y + dx * (SENSITIVITY / 100) }
      if s.camera_rotation_x > Real.pi / 2 then
        { s with camera_rotation_x := Real.pi / 2 }
      else if s.camera_rotation_x < -Real.pi / 2 then
        { s with camera_rotation_x := -Real.pi / 2 }
      else s
    else if e.right then
      let s : State := { s with camera_distance := s.camera_distance + dy * (SENSITIVITY / 10) }
      if s.camera_distance < 0.5 then
        { s with camera_distance := 0.5 }
      else s
    else s
  { s with prev_mouse_x := e.x, prev_mouse_y := e.y }

/-- The globals when `main` enters the render loop: statics are zero and the
camera sits at half the bounds diagonal. -/
noncomputable def main_init (min max : Vec3f) : State :=
  let bounds_diagonal : ℝ := min.Length + max.Length
  { prev_mouse_x := 0, prev_mouse_y := 0, camera_rotation_x := 0, camera_rotation_y := 0,
    camera_distance := bounds_diagonal / 2 }

/-- The state after a sequence of `mouse_callback` events, oldest first. -/
noncomputable def run (es : List MouseEvent) (s : State) : State :=
  es.foldl (fun s e => mouse_callback e s) s

end Project6

/-! ## Project 7: `shadow_mapping.cpp` -/

namespace Project7

/-- The macro `SENSITIVITY` of project 7. -/
def SENSITIVITY : ℝ := 1

/-- The globals of project 7 that the pointer callback touches. -/
structure State where
  prev_mouse_x : ℝ
  prev_mouse_y : ℝ
  camera_rotation_x : ℝ
  camera_rotation_y : ℝ
  camera_distance : ℝ
  light_rotation_x : ℝ
  light_rotation_y : ℝ
  light_distance : ℝ

/-- The function `mouse_callback` of project 7. -/
noncomputable def mouse_callback (e : MouseEvent) (s : State) : State :=
  let dx : ℝ := e.x - s.prev_mouse_x
  let dy : ℝ := e.y - s.prev_mouse_y
  let s : State :=
    if e.left then
      if e.left_control then
        let s : State := { s with light_rotation_x := s.light_rotation_x + dy * (SENSITIVITY / 100) }
        let s : State := { s with light_rotation_y := s.light_rotation_y + dx * (SENSITIVITY / 100) }
        if s.light_rotation_x > Real.pi / 2 then
          { s with light_rotation_x := Real.pi / 2 }
        else if s.light_rotation_x < -Real.pi / 2 then
          { s with light_rotation_x := -Real.pi / 2 }
        else s
      else
        let s : State := { s with camera_rotation_x := s.camera_rotation_x + dy * (SENSITIVITY / 100) }
        let s : State := { s with camera_rotation_y := s.camera_rotation_y + dx * (SENSITIVITY / 100) }
        if s.camera_rotation_x > Real.pi / 2 then
          { s with camera_rotation_x := Real.pi / 2 }
        else if s.camera_rotation_x < -Real.pi / 2 then
          { s with camera_rotation_x := -Real.pi / 2 }
        else s
    else if e.right then
      if e.left_control then
        let s : State := { s with light_distance := s.light_distance + dy * (SENSITIVITY / 10) }
        if s.light_distance < 0.05 then
          { s with light_distance := 0.05 }
        else s
      else
        let s : State := { s with camera_distance := s.camera_distance + dy * (SENSITIVITY / 10) }
        if s.camera_distance < 0.05 then
          { s with camera_distance := 0.05 }
        else s
    else s
  { s with prev_mouse_x := e.x, prev_mouse_y := e.y }

/-- The globals when `main` enters the render loop: statics are zero, both
distances are half the bounds diagonal and the light starts at `M_PI / 2`. -/
noncomputable def main_init (min max : Vec3f) : State :=
  let bounds_diagonal : ℝ := min.Length + max.Length
  { prev_mouse_x := 0, prev_mouse_y := 0,
    camera_rotation_x := 0, camera_rotation_y := 0, camera_distance := bounds_diagonal / 2,
    light_rotation_x := Real.pi / 2, light_rotation_y := 0,
    light_distance := bounds_diagonal / 2 }

/-- The state after a sequence of `mouse_callback` events, oldest first. -/
noncomputable def run (es : List MouseEvent) (s : State) : State :=
  es.foldl (fun s e => mouse_callback e s) s

end Project7

/-! ## Project 8: `tessellation.cpp` -/

namespace Project8

/-- The macro `SENSITIVITY` of project 8. -/
def SENSITIVITY : ℝ := 1

/-- The globals of project 8 that the callbacks touch, the close flag of the
window (`should_close`, set by `glfwSetWindowShouldClose`) and the number of
shader rebuilds (`recompiles`, one per call of `compile_shaders`). -/
structure State where
  prev_mouse_x : ℝ
  prev_mouse_y : ℝ
  camera_rotation_x : ℝ
  camera_rotation_y : ℝ
  camera_distance : ℝ
  light_rotation_x : ℝ
  light_rotation_y : ℝ
  light_distance : ℝ
  wireframe_mode : Bool
  tessellation_level : Int
  should_close : Bool
  recompiles : Nat

/-- The function `key_callback` of project 8. The `int` doubling is written
on `Int`: from `main`'s initial level the value doubled is at most 64. -/
def key_callback (k : KeyEvent) (s : State) : State :=
  if k.action = GLFW_PRESS then
    if k.key = GLFW_KEY_ESCAPE then
      { s with should_close := true }
    else if k.key = GLFW_KEY_F6 then
      { s with recompiles := s.recompiles + 1 }
    else if k.key = GLFW_KEY_SPACE then
      { s with wireframe_mode := !s.wireframe_mode }
    else if k.key = GLFW_KEY_RIGHT then
      let s : State := { s with tessellation_level := s.tessellation_level * 2 }
      if s.tessellation_level > 64 then
        { s with tessellation_level := 64 }
      else s
    else if k.key = GLFW_KEY_LEFT then
      let s : State := { s with tessellation_level := Int.tdiv s.tessellation_level 2 }
      if s.tessellation_level < 1 then
        { s with tessellation_level := 1 }
      else s
    else s
  else s

/-- The function `mouse_callback` of project 8. -/
noncomputable def mouse_callback (e : MouseEvent) (s : State) : State :=
  let dx : ℝ := e.x - s.prev_mouse_x
  let dy : ℝ := e.y - s.prev_mouse_y
  let s : State :=
    if e.left then
      if e.left_control then
        let s : State := { s with light_rotation_x := s.light_rotation_x + dy * (SENSITIVITY / 100) }
        let s : State := { s with light_rotation_y := s.light_rotation_y + dx * (SENSITIVITY / 100) }
        if s.light_rotation_x > Real.pi / 2 then
          { s with light_rotation_x := Real.pi / 2 }
        else if s.light_rotation_x < -Real.pi / 2 then
          { s with light_rotation_x := -Real.pi / 2 }
        else s
      else
        let s : State := { s with camera_rotation_x := s.camera_rotation_x + dy * (SENSITIVITY / 100) }
        let s : State := { s with camera_rotation_y := s.camera_rotation_y + dx * (SENSITIVITY / 100) }
        if s.camera_rotation_x > Real.pi / 2 then
          { s with camera_rotation_x := Real.pi / 2 }
        else if s.camera_rotation_x < -Real.pi / 2 then
          { s with camera_rotation_x := -Real.pi / 2 }
        else s
    else if e.right then
      if e.left_control then
        let s : State := { s with light_distance := s.light_distance + dy * (SENSITIVITY / 10) }
        if s.light_distance < 0.05 then
          { s with light_distance := 0.05 }
        else s
      else
        let s : State := { s with camera_distance := s.camera_distance + dy * (SENSITIVITY / 10) }
        if s.camera_distance < 0.05 then
          { s with camera_distance := 0.05 }
        else s
    else s
  { s with prev_mouse_x := e.x, prev_mouse_y := e.y }

/-- The globals when `main` enters the render loop: statics are zero except
the six values `main` assigns just before the loop. -/
noncomputable def main_init : State :=
  { prev_mouse_x := 0, prev_mouse_y := 0,
    camera_rotation_x := Real.pi / 2, camera_rotation_y := 0, camera_distance := 100,
    light_rotation_x := Real.pi / 4, light_rotation_y := 0, light_distance := 80,
    wireframe_mode := false, tessellation_level := 1,
    should_close := false, recompiles := 0 }

/-- An input event of project 8: a cursor move or a key event. -/
inductive Event where
  | mouse (e : MouseEvent)
  | key (k : KeyEvent)

/-- Dispatch of one event to its callback. -/
noncomputable def step (s : State) : Event → State
  | Event.mouse e => mouse_callback e s
  | Event.key k => key_callback k s

/-- The state after a sequence of events, oldest first. -/
noncomputable def run (es : List Event) (s : State) : State :=
  es.foldl step s

end Project8

/-! ## Clamp ranges -/

/-- Value of `EXIT_FAILURE` in `stdlib.h`. -/
def EXIT_FAILURE : Int := 1

namespace Project2

/-- The first statement of `main` in project 2: `some status` when the check
of `argc` ends the process with `exit(status)`, `none` when `main` goes on. -/
def main_arg_check (argc : Int) : Option Int :=
  if argc ≠ 2 then some EXIT_FAILURE else none

end Project2

namespace Project3

/-- The first statement of `main` in project 3: `some status` when the check
of `argc` ends the process with `exit(status)`, `none` when `main` goes on. -/
def main_arg_check (argc : Int) : Option Int :=
  if argc ≠ 2 then some EXIT_FAILURE else none

end Project3

namespace Project4

/-- The first statement of `main` in project 4: `some status` when the check
of `argc` ends the process with `exit(status)`, `none` when `main` goes on. -/
def main_arg_check (argc : Int) : Option Int :=
  if argc ≠ 2 then some EXIT_FAILURE else none

end Project4

namespace Project5

/-- The first statement of `main` in project 5: `some status` when the check
of `argc` ends the process with `exit(status)`, `none` when `main` goes on. -/
def main_arg_check (argc : Int) : Option Int :=
  if argc ≠ 2 then some EXIT_FAILURE else none

end Project5

namespace Project6

/-- The first statement of `main` in project 6: `some status` when the check
of `argc` ends the process with `exit(status)`, `none` when `main` goes on. -/
def main_arg_check (argc : Int) : Option Int :=
  if argc ≠ 2 then some EXIT_FAILURE else none

end Project6

namespace Project7

/-- The first statement of `main` in project 7: `some status` when the check
of `argc` ends the process with `exit(status)`, `none` when `main` goes on. -/
def main_arg_check (argc : Int) : Option Int :=
  if argc ≠ 2 then some EXIT_FAILURE else none

end Project7

namespace Project8

/-- The first statement of `main` in project 8: `some status` when the check
of `argc` ends the process with `exit(status)`, `none` when `main` goes on. -/
def main_arg_check (argc : Int) : Option Int :=
  if argc < 2 ∨ argc > 3 then some EXIT_FAILURE else none

end Project8

/-! ## Homogeneous matrices of the transform pipeline -/

/-- A `cy::Matrix4f`, a 4x4 matrix of reals acting on column vectors. -/
abbrev Matrix4f : Type := Matrix (Fin 4) (Fin 4) ℝ

/-- Modelled from the spec: `cy::Matrix4f::Translation` is defined in the
cyCodeBase header `cyMatrix.h`, which is not among the sources; this is the
homogeneous translation matrix by `v` that the pipeline description names. -/
def Matrix4f.Translation (v : Vec3f) : Matrix4f :=
  !![1, 0, 0, v.x;
     0, 1, 0, v.y;
     0, 0, 1, v.z;
     0, 0, 0, 1]

/-- Modelled from the spec: `cy::Matrix4f::Scale` is defined in the cyCodeBase
header `cyMatrix.h`, which is not among the sources; this is the uniform scale
of the three space coordinates by `s` that the pipeline description names. -/
def Matrix4f.Scale (s : ℝ) : Matrix4f :=
  !![s, 0, 0, 0;
     0, s, 0, 0;
     0, 0, s, 0;
     0, 0, 0, 1]

/-- The leading factor `Translation({0.5, 0.5, 0.499}) * Scale(0.5)` of
`shadow_transform` in the render loops of projects 7 and 8. -/
noncomputable def shadow_bias_and_scale : Matrix4f :=
  Matrix4f.Translation ⟨0.5, 0.5, 0.499⟩ * Matrix4f.Scale 0.5

/-- The matrix `shadow_transform` of project 7, as a function of the
`light_view_transform` computed just before it. -/
noncomputable def Project7.shadow_transform (light_view_transform : Matrix4f) : Matrix4f :=
  Matrix4f.Translation ⟨0.5, 0.5, 0.499⟩ * Matrix4f.Scale 0.5 * light_view_transform

/-- The matrix `shadow_transform` of project 8, as a function of the
`light_view_transform` computed just before it. -/
noncomputable def Project8.shadow_transform (light_view_transform : Matrix4f) : Matrix4f :=
  Matrix4f.Translation ⟨0.5, 0.5, 0.499⟩ * Matrix4f.Scale 0.5 * light_view_transform

/-- The homogeneous point `(x, y, z, 1)`. -/
def point4 (x y z : ℝ) : Fin 4 → ℝ := ![x, y, z, 1]

/-! ## Rotations, projection and submatrices of the transform pipeline -/

/-- A `cy::Matrix3f`, a 3x3 matrix of reals acting on column vectors. -/
abbrev Matrix3f : Type := Matrix (Fin 3) (Fin 3) ℝ

/-- The vector `-v`, the unary minus of `cy::Vec3f`. -/
def Vec3f.neg (v : Vec3f) : Vec3f := ⟨-v.x, -v.y, -v.z⟩

/-- Modelled from the spec: `cy::Matrix4f::RotationX` is defined in the
cyCodeBase header `cyMatrix.h`, which is not among the sources; this is the
rotation about the X axis by `theta` that the pipeline description names. -/
noncomputable def Matrix4f.RotationX (theta : ℝ) : Matrix4f :=
  !![1, 0, 0, 0;
     0, Real.cos theta, -Real.sin theta, 0;
     0, Real.sin theta, Real.cos theta, 0;
     0, 0, 0, 1]

/-- Modelled from the spec: `cy::Matrix4f::RotationY` is defined in the
cyCodeBase header `cyMatrix.h`, which is not among the sources; this is the
rotation about the Y axis by `theta` that the pipeline description names. -/
noncomputable def Matrix4f.RotationY (theta : ℝ) : Matrix4f :=
  !![Real.cos theta, 0, Real.sin theta, 0;
     0, 1, 0, 0;
     -Real.sin theta, 0, Real.cos theta, 0;
     0, 0, 0, 1]

/-- Modelled from the spec: `cy::Matrix4f::RotationZ` is defined in the
cyCodeBase header `cyMatrix.h`, which is not among the sources; this is the
rotation about the Z axis by `theta` that the pipeline description names. -/
noncomputable def Matrix4f.RotationZ (theta : ℝ) : Matrix4f :=
  !![Real.cos theta, -Real.sin theta, 0, 0;
     Real.sin theta, Real.cos theta, 0, 0;
     0, 0, 1, 0;
     0, 0, 0, 1]

/-- Modelled from the spec: `cy::Matrix4f::Perspective` is defined in the
cyCodeBase header `cyMatrix.h`, which is not among the sources; this is the
perspective projection with vertical field of view `fov`, aspect ratio and
near and far planes that the pipeline description names, in the OpenGL
convention. -/
noncomputable def Matrix4f.Perspective (fov aspect znear zfar : ℝ) : Matrix4f :=
  let yScale : ℝ := 1 / Real.tan (fov * 0.5)
  let xScale : ℝ := yScale / aspect
  let zdif : ℝ := znear - zfar
  !![xScale, 0, 0, 0;
     0, yScale, 0, 0;
     0, 0, (zfar + znear) / zdif, (2 * zfar * znear) / zdif;
     0, 0, -1, 0]

/-- Modelled from the spec: the four-argument `cy::Matrix4f::Scale` is defined
in the cyCodeBase header `cyMatrix.h`, which is not among the sources; this is
the scale by one factor per homogeneous coordinate. -/
def Matrix4f.Scale4 (x y z w : ℝ) : Matrix4f :=
  !![x, 0, 0, 0;
     0, y, 0, 0;
     0, 0, z, 0;
     0, 0, 0, w]

/-- Modelled from the spec: `cy::Matrix4f::GetSubMatrix3` is defined in the
cyCodeBase header `cyMatrix.h`, which is not among the sources; this is the
upper 3x3 submatrix the pipeline description names. -/
def Matrix4f.GetSubMatrix3 (m : Matrix4f) : Matrix3f :=
  Matrix.of fun i j => m (Fin.castSucc i) (Fin.castSucc j)

/-- Modelled from the spec: `cy::Matrix3f::GetInverse` is defined in the
cyCodeBase header `cyMatrix.h`, which is not among the sources; this is the
matrix inverse (of an invertible matrix). -/
noncomputable def Matrix3f.GetInverse (m : Matrix3f) : Matrix3f := m⁻¹

/-- Modelled from the spec: `cy::Matrix3f::GetTranspose` is defined in the
cyCodeBase header `cyMatrix.h`, which is not among the sources; this is the
transpose. -/
def Matrix3f.GetTranspose (m : Matrix3f) : Matrix3f := m.transpose

/-- The origin `vec4(0, 0, 0, 1)` of the shaders. -/
def origin4 : Fin 4 → ℝ := point4 0 0 0

namespace Project3

/-- The globals of project 3. -/
structure State where
  prev_mouse_x : ℝ
  prev_mouse_y : ℝ
  camera_rotation_x : ℝ
  camera_rotation_z : ℝ
  camera_distance : ℝ
  perspective : Bool
  light_rotation_x : ℝ
  light_rotation_z : ℝ
  aspect_ratio : ℝ

/-- The matrix `projection` of the render loop of project 3. -/
noncomputable def projection (s : State) : Matrix4f :=
  if s.perspective then
    Matrix4f.Perspective ((2 / 5) * Real.pi) s.aspect_ratio 0.5 100 *
      Matrix4f.Translation ⟨0, 0, -s.camera_distance⟩
  else
    Matrix4f.Scale4 (1 / s.aspect_ratio) 1 1 1 * Matrix4f.Scale (1 / s.camera_distance)

/-- The matrix `position_transform` of the render loop of project 3 as it is
when `normal_transform` is computed from it: rotation and centering first,
then the projection applied on the left. -/
noncomputable def position_transform (mesh_center : Vec3f) (s : State) : Matrix4f :=
  let position_transform : Matrix4f :=
    Matrix4f.RotationX s.camera_rotation_x * Matrix4f.RotationZ s.camera_rotation_z *
      Matrix4f.Translation mesh_center.neg
  projection s * position_transform

/-- The matrix `normal_transform` of the render loop of project 3. -/
noncomputable def normal_transform (mesh_center : Vec3f) (s : State) : Matrix3f :=
  Matrix3f.GetTranspose (Matrix3f.GetInverse
    (Matrix4f.GetSubMatrix3 (position_transform mesh_center s)))

end Project3

namespace Project5

/-- The matrix `object_position_transform` of the render loop of project 5. -/
noncomputable def object_position_transform (mesh_center : Vec3f) (s : State) : Matrix4f :=
  Matrix4f.Perspective ((2 / 5) * Real.pi) 1 0.05 100 *
    Matrix4f.Translation ⟨0, 0, -s.object_camera_distance⟩ *
    Matrix4f.RotationX s.object_camera_rotation_x *
    Matrix4f.RotationZ s.object_camera_rotation_z *
    Matrix4f.Translation mesh_center.neg

/-- The matrix `normal_transform` of the render loop of project 5. -/
noncomputable def normal_transform (mesh_center : Vec3f) (s : State) : Matrix3f :=
  Matrix3f.GetTranspose (Matrix3f.GetInverse
    (Matrix4f.GetSubMatrix3 (object_position_transform mesh_center s)))

end Project5

namespace Project8

/-- The matrix `position_transform` of the render loop of project 8;
`aspect_ratio` is the global that `resize_callback` maintains. -/
noncomputable def position_transform (aspect_ratio : ℝ) (s : State) : Matrix4f :=
  Matrix4f.Perspective ((2 / 5) * Real.pi) aspect_ratio 0.5 200 *
    Matrix4f.Translation ⟨0, 0, -s.camera_distance⟩ *
    Matrix4f.RotationX s.camera_rotation_x *
    Matrix4f.RotationY s.camera_rotation_y

/-- The matrix `light_transform` of the render loop of project 8. -/
noncomputable def light_transform (s : State) : Matrix4f :=
  Matrix4f.RotationY (-s.light_rotation_y) *
    Matrix4f.RotationX (-s.light_rotation_x) *
    Matrix4f.Translation ⟨0, 0, s.light_distance⟩

/-- The matrix `camera_transform` of the render loop of project 8. -/
noncomputable def camera_transform (s : State) : Matrix4f :=
  Matrix4f.RotationY (-s.camera_rotation_y) *
    Matrix4f.RotationX (-s.camera_rotation_x) *
    Matrix4f.Translation ⟨0, 0, s.camera_distance⟩

/-- The matrix `light_view_transform` of the render loop of project 8. -/
noncomputable def light_view_transform (aspect_ratio : ℝ) (s : State) : Matrix4f :=
  Matrix4f.Perspective ((2 / 5) * Real.pi) aspect_ratio 0.5 200 *
    Matrix4f.Translation ⟨0, 0, -s.light_distance⟩ *
    Matrix4f.RotationX s.light_rotation_x *
    Matrix4f.RotationY s.light_rotation_y

/-- The matrix `texture_transform` of the render loop of project 8. -/
noncomputable def texture_transform : Matrix4f :=
  Matrix4f.Translation ⟨0.5, 0.5, 0.5⟩ * Matrix4f.Scale (1 / 120)

/-- The four corners in the array `plane_vertices` of `main`. -/
def plane_vertices : List Vec3f :=
  [⟨-60, 0, 60⟩, ⟨60, 0, 60⟩, ⟨60, 0, -60⟩, ⟨-60, 0, -60⟩]

/-- The `texture_coordinate` of the tessellation evaluation shader: the `.xz`
of `texture_transform * vec4(position, 1)`. -/
noncomputable def texture_coordinate (position : Vec3f) : ℝ × ℝ :=
  let v := texture_transform.mulVec (point4 position.x position.y position.z)
  (v 0, v 2)

end Project8

/-! ## The caller of `color_fader` and the intended box dimension -/

/-- The largest box dimension in the words of the specification: the maximum
over the three axes `i` of `|min[i]| + |max[i]|`. It is what the name
`max_box_dimension` announces, to be compared with what `main` computes. -/
noncomputable def Project2.largest_box_dimension (min max : Vec3f) : ℝ :=
  Max.max (|min.x| + |max.x|) (Max.max (|min.y| + |max.y|) (|min.z| + |max.z|))

/-! ## The two factors of the upper 3x3 submatrix of a position transform -/

/-- The diagonal of the upper 3x3 submatrix of `Matrix4f.Perspective`: the
scale of x, of y and of depth. -/
noncomputable def perspective_scale (fov aspect znear zfar : ℝ) : Fin 3 → ℝ :=
  ![1 / Real.tan (fov * 0.5) / aspect, 1 / Real.tan (fov * 0.5),
    (zfar + znear) / (znear - zfar)]

/-- The rotation factor of the position transforms of projects 3 and 5: the
upper 3x3 submatrix of `RotationX(rx) * RotationZ(rz)`. -/
noncomputable def rotation_part (rx rz : ℝ) : Matrix3f :=
  Matrix4f.GetSubMatrix3 (Matrix4f.RotationX rx * Matrix4f.RotationZ rz)

/-! ## Lemmas on `color_fader` -/

/-- Without overflow and with a nonzero period `color_fader` is the plain
case split on the truncated remainder and quotient. -/
theorem color_fader_eq (time offset period : Int) (hp : period ≠ 0)
    (h : no_int_overflow time offset period) :
    color_fader time offset period =
      some (if 0 < Int.tmod (time + offset) period ∧
              Int.tmod (time + offset) period ≤ Int.tdiv (2 * period) 3 then
            Real.sin ((3 * Real.pi / 2) *
              (((Int.tmod (time + offset) period : Int) : ℝ) / (period : ℝ)))
          else 0) := by
  obtain ⟨h1, h2, h3⟩ := h
  have h3' : ¬ (period = 0 ∨ (time + offset = INT_MIN ∧ period = -1)) := by
    rintro (h0 | h0)
    · exact hp h0
    · exact h3 h0
  have h4 : ¬ ((3 : Int) = 0 ∨ (2 * period = INT_MIN ∧ (3 : Int) = -1)) := by
    rintro (h0 | ⟨_, h0⟩) <;> omega
  simp only [color_fader, int_add, int_rem, int_mul, int_div, h1, h2, h3', h4,
    and_self, if_true, if_false, Option.bind_eq_bind, Option.some_bind, Option.bind_some]
  split <;> rfl

/-- Truncated division by three of a non-positive number is non-positive. -/
theorem tdiv_three_nonpos (a : Int) (h : a ≤ 0) : Int.tdiv a 3 ≤ 0 := by
  have h1 : a = -(-a) := by omega
  rw [h1, Int.neg_tdiv]
  have h2 : 0 ≤ Int.tdiv (-a) 3 := Int.tdiv_nonneg (by omega) (by omega)
  omega

/-- Three times the truncated third of a non-negative number does not exceed
it. -/
theorem tdiv_three_mul_le (a : Int) (h : 0 ≤ a) : 3 * Int.tdiv a 3 ≤ a := by
  rw [Int.tdiv_eq_ediv h (by omega)]
  omega

/-- In the active phase the period is positive and the periodic time is at
most two thirds of it. -/
theorem active_phase_bounds (s period : Int)
    (h : 0 < Int.tmod s period ∧ Int.tmod s period ≤ Int.tdiv (2 * period) 3) :
    0 < period ∧ 3 * Int.tmod s period ≤ 2 * period := by
  have hpos : 0 < period := by
    by_contra hneg
    have := tdiv_three_nonpos (2 * period) (by omega)
    omega
  have := tdiv_three_mul_le (2 * period) (by omega)
  exact ⟨hpos, by omega⟩

/-- The angle handed to `sin` in the active phase lies in `[0, pi]`. -/
theorem active_radians_bounds (pt period : Int) (hpt : 0 < pt) (hp : 0 < period)
    (h : 3 * pt ≤ 2 * period) :
    0 ≤ (3 * Real.pi / 2) * ((pt : ℝ) / (period : ℝ)) ∧
      (3 * Real.pi / 2) * ((pt : ℝ) / (period : ℝ)) ≤ Real.pi := by
  have hpR : (0 : ℝ) < (period : ℝ) := by exact_mod_cast hp
  have hptR : (0 : ℝ) < (pt : ℝ) := by exact_mod_cast hpt
  have hR : (3 : ℝ) * (pt : ℝ) ≤ 2 * (period : ℝ) := by exact_mod_cast h
  have hpi := Real.pi_pos
  have hq : (pt : ℝ) / (period : ℝ) ≤ 2 / 3 := by
    rw [div_le_iff₀ hpR]
    linarith
  have hq0 : 0 ≤ (pt : ℝ) / (period : ℝ) := by positivity
  constructor
  · positivity
  · calc (3 * Real.pi / 2) * ((pt : ℝ) / (period : ℝ))
        ≤ (3 * Real.pi / 2) * (2 / 3) := by
          apply mul_le_mul_of_nonneg_left hq
          positivity
      _ = Real.pi := by ring

/-! ## The dead phase of `color_fader` -/

/-- The remainder of a non-positive dividend is non-positive. -/
theorem tmod_nonpos_of_nonpos (a b : Int) (h : a ≤ 0) : Int.tmod a b ≤ 0 := by
  obtain ⟨c, rfl⟩ : ∃ c, a = -c := ⟨-a, by omega⟩
  have h2 : 0 ≤ Int.tmod c b := Int.tmod_nonneg b (by omega)
  rw [Int.tmod_def] at h2
  rw [Int.tmod_def, Int.neg_tdiv]
  linarith

/-- C2: for every time, offset and period > 0 (no integer overflow), if the
periodic time `(time + offset) mod period` lies outside the active two thirds
of the period, `3 * pt > 2 * period`, then `color_fader` returns exactly 0.
The remainder may be read as the truncated `%` of the source or as the
non-negative mathematical remainder. -/
theorem color_fader_dead_phase (time offset period : Int) (hp : 0 < period)
    (h : no_int_overflow time offset period)
    (hdead : 2 * period < 3 * Int.tmod (time + offset) period ∨
      2 * period < 3 * ((time + offset) % period)) :
    color_fader time offset period = some 0 := by
  rw [color_fader_eq time offset period (by omega) h]
  have hnot : ¬ (0 < Int.tmod (time + offset) period ∧
      Int.tmod (time + offset) period ≤ Int.tdiv (2 * period) 3) := by
    intro hact
    have h3 := (active_phase_bounds _ _ hact).2
    rcases hdead with hd | hd
    · omega
    · by_cases hs : 0 ≤ time + offset
      · rw [Int.tmod_eq_emod hs (by omega)] at h3
        omega
      · have := tmod_nonpos_of_nonpos (time + offset) period (by omega)
        omega
  rw [if_neg hnot]

/-- Witness for C2: time 4000, offset 0, period 4500 is in the dead phase. -/
theorem color_fader_dead_phase_witness :
    (0 : Int) < 4500 ∧ no_int_overflow 4000 0 4500 ∧
      (2 * 4500 < 3 * Int.tmod (4000 + 0) 4500 ∨
        2 * (4500 : Int) < 3 * ((4000 + 0) % 4500)) ∧
      color_fader 4000 0 4500 = some 0 :=
  ⟨by decide, by decide, by decide,
    color_fader_dead_phase 4000 0 4500 (by decide) (by decide) (by decide)⟩

/-! ## Rig invariants -/

/-- A property that every step preserves holds after any run of steps. -/
theorem foldl_preserves {σ ε : Type} (step : σ → ε → σ) (P : σ → Prop)
    (hstep : ∀ s e, P s → P (step s e)) :
    ∀ (es : List ε) (s : σ), P s → P (es.foldl step s) := by
  intro es
  induction es with
  | nil => intro s hs; exact hs
  | cons e es ih => intro s hs; exact ih (step s e) (hstep s e hs)

/-- A key event of project 8 leaves the six rig scalars as they were. -/
theorem p8_key_keeps_rig (s : Project8.State) (k : KeyEvent) :
    (Project8.key_callback k s).camera_rotation_x = s.camera_rotation_x ∧
    (Project8.key_callback k s).camera_rotation_y = s.camera_rotation_y ∧
    (Project8.key_callback k s).camera_distance = s.camera_distance ∧
    (Project8.key_callback k s).light_rotation_x = s.light_rotation_x ∧
    (Project8.key_callback k s).light_rotation_y = s.light_rotation_y ∧
    (Project8.key_callback k s).light_distance = s.light_distance := by
  unfold Project8.key_callback
  dsimp only
  split_ifs <;> exact ⟨rfl, rfl, rfl, rfl, rfl, rfl⟩

/-- One pointer event of project 8 keeps both distances at or above 0.05. -/
theorem p8_mouse_keeps_floor (s : Project8.State) (e : MouseEvent)
    (h : 0.05 ≤ s.camera_distance ∧ 0.05 ≤ s.light_distance) :
    0.05 ≤ (Project8.mouse_callback e s).camera_distance ∧
      0.05 ≤ (Project8.mouse_callback e s).light_distance := by
  obtain ⟨h1, h2⟩ := h
  unfold Project8.mouse_callback
  dsimp only
  split_ifs <;> constructor <;> linarith

/-- One event of project 8, pointer or key, keeps both distances at or above
0.05. -/
theorem p8_step_keeps_floor (s : Project8.State) (ev : Project8.Event)
    (h : 0.05 ≤ s.camera_distance ∧ 0.05 ≤ s.light_distance) :
    0.05 ≤ (Project8.step s ev).camera_distance ∧
      0.05 ≤ (Project8.step s ev).light_distance := by
  cases ev with
  | mouse e => exact p8_mouse_keeps_floor s e h
  | key k =>
    obtain ⟨_, _, hc, _, _, hl⟩ := p8_key_keeps_rig s k
    show 0.05 ≤ (Project8.key_callback k s).camera_distance ∧
      0.05 ≤ (Project8.key_callback k s).light_distance
    rw [hc, hl]
    exact h

/-- C6: in project 8, starting from `camera_distance = 100` and
`light_distance = 80`, in every state reached by any sequence of
`mouse_callback` and `key_callback` events both distances are at least
0.05. -/
theorem p8_distances_floor (es : List Project8.Event) :
    0.05 ≤ (Project8.run es Project8.main_init).camera_distance ∧
      0.05 ≤ (Project8.run es Project8.main_init).light_distance := by
  refine foldl_preserves Project8.step
    (fun s => 0.05 ≤ s.camera_distance ∧ 0.05 ≤ s.light_distance)
    (fun s e hs => p8_step_keeps_floor s e hs) es _ ?_
  unfold Project8.main_init
  dsimp only
  constructor <;> norm_num

/-- A pointer event of project 8 leaves `tessellation_level` as it was. -/
theorem p8_mouse_keeps_level (s : Project8.State) (e : MouseEvent) :
    (Project8.mouse_callback e s).tessellation_level = s.tessellation_level := by
  unfold Project8.mouse_callback
  dsimp only
  split_ifs <;> rfl

/-- After a key event of project 8 the level is the old one, the old one
doubled and capped at 64, or the old one halved and floored at 1. -/
theorem p8_key_level_cases (s : Project8.State) (k : KeyEvent) :
    (Project8.key_callback k s).tessellation_level = s.tessellation_level ∨
    (Project8.key_callback k s).tessellation_level =
      (if s.tessellation_level * 2 > 64 then 64 else s.tessellation_level * 2) ∨
    (Project8.key_callback k s).tessellation_level =
      (if Int.tdiv s.tessellation_level 2 < 1 then 1 else Int.tdiv s.tessellation_level 2) := by
  unfold Project8.key_callback
  dsimp only
  by_cases hp : k.action = GLFW_PRESS
  · rw [if_pos hp]
    by_cases h1 : k.key = GLFW_KEY_ESCAPE
    · rw [if_pos h1]; exact Or.inl rfl
    rw [if_neg h1]
    by_cases h2 : k.key = GLFW_KEY_F6
    · rw [if_pos h2]; exact Or.inl rfl
    rw [if_neg h2]
    by_cases h3 : k.key = GLFW_KEY_SPACE
    · rw [if_pos h3]; exact Or.inl rfl
    rw [if_neg h3]
    by_cases h4 : k.key = GLFW_KEY_RIGHT
    · rw [if_pos h4]
      refine Or.inr (Or.inl ?_)
      by_cases hc : s.tessellation_level * 2 > 64
      · rw [if_pos hc, if_pos hc]
      · rw [if_neg hc, if_neg hc]
    rw [if_neg h4]
    by_cases h5 : k.key = GLFW_KEY_LEFT
    · rw [if_pos h5]
      refine Or.inr (Or.inr ?_)
      by_cases hc : Int.tdiv s.tessellation_level 2 < 1
      · rw [if_pos hc, if_pos hc]
      · rw [if_neg hc, if_neg hc]
    rw [if_neg h5]
    exact Or.inl rfl
  · rw [if_neg hp]
    exact Or.inl rfl

/-- A key event of project 8 maps a level among 1, 2, 4, 8, 16, 32, 64 to a
level among them. -/
theorem p8_key_keeps_level (s : Project8.State) (k : KeyEvent)
    (h : s.tessellation_level ∈ [1, 2, 4, 8, 16, 32, 64]) :
    (Project8.key_callback k s).tessellation_level ∈ [(1 : Int), 2, 4, 8, 16, 32, 64] := by
  rcases p8_key_level_cases s k with hk | hk | hk
  · rw [hk]; exact h
  · rw [hk]
    simp only [List.mem_cons, List.mem_singleton, List.not_mem_nil, or_false] at h
    rcases h with h | h | h | h | h | h | h <;> rw [h] <;> decide
  · rw [hk]
    simp only [List.mem_cons, List.mem_singleton, List.not_mem_nil, or_false] at h
    rcases h with h | h | h | h | h | h | h <;> rw [h] <;> decide

/-- C7: in project 8, starting from `tessellation_level = 1`, after any finite
sequence of `key_callback` events (any keys and actions, also interleaved with
pointer events) `tessellation_level` is one of 1, 2, 4, 8, 16, 32, 64. -/
theorem p8_tessellation_level_power_of_two (es : List Project8.Event) :
    (Project8.run es Project8.main_init).tessellation_level ∈
      [(1 : Int), 2, 4, 8, 16, 32, 64] := by
  refine foldl_preserves Project8.step
    (fun s => s.tessellation_level ∈ [(1 : Int), 2, 4, 8, 16, 32, 64]) ?_ es _ ?_
  · intro s ev hs
    cases ev with
    | mouse e =>
      show (Project8.mouse_callback e s).tessellation_level ∈ [(1 : Int), 2, 4, 8, 16, 32, 64]
      rw [p8_mouse_keeps_level]
      exact hs
    | key k => exact p8_key_keeps_level s k hs
  · show (1 : Int) ∈ [(1 : Int), 2, 4, 8, 16, 32, 64]
    decide

/-- C10: at the start of a period the output is exactly 0: for every period
> 0 and every time, offset with `time + offset` a multiple `k * period` of the
period (no integer overflow), `color_fader` returns 0; this covers every
non-negative multiple, and the sign of `k` plays no role. -/
theorem color_fader_period_start (time offset period k : Int) (hp : 0 < period)
    (hmul : time + offset = k * period)
    (h : no_int_overflow time offset period) :
    color_fader time offset period = some 0 := by
  rw [color_fader_eq time offset period (by omega) h]
  have hzero : Int.tmod (time + offset) period = 0 := by
    rw [hmul]
    exact Int.mul_tmod_left k period
  rw [hzero, if_neg (by omega)]

/-- Witness for C10, the scenario of the specification:
`color_fader(0, 0, 4500) = 0`. -/
theorem color_fader_period_start_witness :
    color_fader 0 0 4500 = some 0 :=
  color_fader_period_start 0 0 4500 0 (by decide) (by decide) (by decide)

/-! ## The shape of the active phase -/

/-- In the active phase, stated with `3 * pt <= 2 * period`, `color_fader`
returns the sine of `3 pi / 2` times the completed fraction of the period. -/
theorem color_fader_active (time offset period : Int) (hp : 0 < period)
    (h : no_int_overflow time offset period)
    (hpos : 0 < Int.tmod (time + offset) period)
    (hle : 3 * Int.tmod (time + offset) period ≤ 2 * period) :
    color_fader time offset period =
      some (Real.sin ((3 * Real.pi / 2) *
        (((Int.tmod (time + offset) period : Int) : ℝ) / (period : ℝ)))) := by
  rw [color_fader_eq time offset period (by omega) h]
  have hq : Int.tmod (time + offset) period ≤ Int.tdiv (2 * period) 3 := by
    rw [Int.tdiv_eq_ediv (by omega) (by omega)]
    omega
  rw [if_pos ⟨hpos, hq⟩]

/-- At periodic time `2 * period / 3`, with the period divisible by three, the
angle is `pi` and `color_fader` returns 0. -/
theorem color_fader_at_two_thirds (time offset period : Int) (hp : 0 < period)
    (h : no_int_overflow time offset period) (h3 : period % 3 = 0)
    (hpt : Int.tmod (time + offset) period = 2 * period / 3) :
    color_fader time offset period = some 0 := by
  have hpt3 : 3 * Int.tmod (time + offset) period = 2 * period := by omega
  rw [color_fader_active time offset period hp h (by omega) (by omega)]
  have hR : (3 : ℝ) * ((Int.tmod (time + offset) period : Int) : ℝ) = 2 * (period : ℝ) := by
    exact_mod_cast hpt3
  have hpR : (period : ℝ) ≠ 0 := by
    have : (0 : ℝ) < (period : ℝ) := by exact_mod_cast hp
    exact ne_of_gt this
  have hang : (3 * Real.pi / 2) *
      (((Int.tmod (time + offset) period : Int) : ℝ) / (period : ℝ)) = Real.pi := by
    have hpt' : ((Int.tmod (time + offset) period : Int) : ℝ) = 2 * (period : ℝ) / 3 := by
      linarith
    rw [hpt']
    field_simp
    ring
  rw [hang, Real.sin_pi]

/-- At the first active tick, periodic time 1, the output is between 0 and
`3 pi / (2 period)`. -/
theorem color_fader_first_tick (time offset period : Int) (hp : 2 ≤ period)
    (h : no_int_overflow time offset period)
    (hpt : Int.tmod (time + offset) period = 1) :
    ∃ v : ℝ, color_fader time offset period = some v ∧
      0 ≤ v ∧ v ≤ 3 * Real.pi / (2 * (period : ℝ)) := by
  have hpi := Real.pi_pos
  have hpR : (2 : ℝ) ≤ (period : ℝ) := by exact_mod_cast hp
  rw [color_fader_active time offset period (by omega) h (by omega) (by omega), hpt]
  have hang : (3 * Real.pi / 2) * (((1 : Int) : ℝ) / (period : ℝ)) =
      3 * Real.pi / (2 * (period : ℝ)) := by
    push_cast
    field_simp
  rw [hang]
  have hnonneg : 0 ≤ 3 * Real.pi / (2 * (period : ℝ)) := by positivity
  have hle : 3 * Real.pi / (2 * (period : ℝ)) ≤ Real.pi := by
    rw [div_le_iff₀ (by linarith)]
    nlinarith
  exact ⟨_, rfl, Real.sin_nonneg_of_nonneg_of_le_pi hnonneg hle, Real.sin_le hnonneg⟩

/-- At the last active tick, periodic time `floor(2 period / 3)`, the output
is between 0 and `3 pi / (2 period)`. -/
theorem color_fader_last_tick (time offset period : Int) (hp : 2 ≤ period)
    (h : no_int_overflow time offset period)
    (hpt : Int.tmod (time + offset) period = Int.tdiv (2 * period) 3) :
    ∃ v : ℝ, color_fader time offset period = some v ∧
      0 ≤ v ∧ v ≤ 3 * Real.pi / (2 * (period : ℝ)) := by
  have hpi := Real.pi_pos
  have hpR : (2 : ℝ) ≤ (period : ℝ) := by exact_mod_cast hp
  have hq : Int.tdiv (2 * period) 3 = 2 * period / 3 :=
    Int.tdiv_eq_ediv (by omega) (by omega)
  have hlo : 2 * period - 2 ≤ 3 * Int.tmod (time + offset) period := by omega
  have hhi : 3 * Int.tmod (time + offset) period ≤ 2 * period := by omega
  rw [color_fader_active time offset period (by omega) h (by omega) hhi]
  obtain ⟨h0, hle⟩ := active_radians_bounds (Int.tmod (time + offset) period) period
    (by omega) (by omega) hhi
  refine ⟨_, rfl, Real.sin_nonneg_of_nonneg_of_le_pi h0 hle, ?_⟩
  have hloR : 2 * (period : ℝ) - 2 ≤ 3 * ((Int.tmod (time + offset) period : Int) : ℝ) := by
    exact_mod_cast hlo
  have hgap : Real.pi - (3 * Real.pi / 2) *
      (((Int.tmod (time + offset) period : Int) : ℝ) / (period : ℝ)) ≤
      3 * Real.pi / (2 * (period : ℝ)) := by
    have hrew : Real.pi - (3 * Real.pi / 2) *
        (((Int.tmod (time + offset) period : Int) : ℝ) / (period : ℝ)) =
        Real.pi * (2 * (period : ℝ) -
          3 * ((Int.tmod (time + offset) period : Int) : ℝ)) / (2 * (period : ℝ)) := by
      field_simp
      ring
    rw [hrew]
    apply div_le_div_of_nonneg_right _ (by linarith)
    nlinarith
  calc Real.sin ((3 * Real.pi / 2) *
        (((Int.tmod (time + offset) period : Int) : ℝ) / (period : ℝ)))
      = Real.sin (Real.pi - (3 * Real.pi / 2) *
        (((Int.tmod (time + offset) period : Int) : ℝ) / (period : ℝ))) :=
        (Real.sin_pi_sub _).symm
    _ ≤ Real.pi - (3 * Real.pi / 2) *
        (((Int.tmod (time + offset) period : Int) : ℝ) / (period : ℝ)) :=
        Real.sin_le (by linarith)
    _ ≤ 3 * Real.pi / (2 * (period : ℝ)) := hgap

/-! ## Where `color_fader` is defined -/

/-- Counterexample to C13: with period 0 the remainder `% period` is taken by
zero and `color_fader` has no value. -/
theorem color_fader_zero_period_undefined :
    color_fader 0 0 0 = none ∧ int_rem (0 + 0) 0 = none := by
  constructor
  · simp [color_fader, int_add, int_rem, INT_MIN, INT_MAX]
  · simp [int_rem]

/-- C13 (amended): `color_fader` is defined exactly for the integer triples
with period != 0 whose `int` operations do not overflow: the division
`2 * period / 3` is never by zero, and the remainder `% period` is by zero
when period = 0. -/
theorem color_fader_defined_iff (time offset period : Int) :
    (color_fader time offset period).isSome = true ↔
      (period ≠ 0 ∧ no_int_overflow time offset period) := by
  constructor
  · intro hsome
    by_cases h1 : INT_MIN ≤ time + offset ∧ time + offset ≤ INT_MAX
    · by_cases h2 : period = 0 ∨ (time + offset = INT_MIN ∧ period = -1)
      · simp [color_fader, int_add, int_rem, h1, h2] at hsome
      · by_cases h3 : INT_MIN ≤ 2 * period ∧ 2 * period ≤ INT_MAX
        · refine ⟨fun h0 => h2 (Or.inl h0), h1, h3, fun h4 => h2 (Or.inr h4)⟩
        · simp [color_fader, int_add, int_rem, int_mul, h1, h2, h3] at hsome
    · simp [color_fader, int_add, h1] at hsome
  · rintro ⟨hp, h⟩
    rw [color_fader_eq time offset period hp h]
    rfl

/-! ## The rig controllers, one event at a time -/

/-- C17: in project 5's `mouse_callback` the modifier key selects exactly one
rig to receive the update and all other rigs are unchanged: on a left-button
drag the plane camera's rotations change if left-ALT is held, otherwise the
light's rotations if left-CTRL is held, otherwise the object camera's
rotations; on a right-button drag (left not pressed) the plane camera's
distance changes if left-ALT is held and otherwise the object camera's
distance. In each case the state after is the state before with only the named
fields (and the recorded cursor position) replaced. -/
theorem p5_mouse_callback_routing (e : MouseEvent) (s : Project5.State) :
    (Project5.mouse_callback { e with left := true, left_alt := true } s =
      { s with
        plane_camera_rotation_x := (Project5.move_rotation s.plane_camera_rotation_x
          s.plane_camera_rotation_z (e.x - s.prev_mouse_x) (e.y - s.prev_mouse_y)).1,
        plane_camera_rotation_z := (Project5.move_rotation s.plane_camera_rotation_x
          s.plane_camera_rotation_z (e.x - s.prev_mouse_x) (e.y - s.prev_mouse_y)).2,
        prev_mouse_x := e.x, prev_mouse_y := e.y }) ∧
    (Project5.mouse_callback
        { e with left := true, left_alt := false, left_control := true } s =
      { s with
        light_rotation_x := (Project5.move_rotation s.light_rotation_x
          s.light_rotation_z (e.x - s.prev_mouse_x) (e.y - s.prev_mouse_y)).1,
        light_rotation_z := (Project5.move_rotation s.light_rotation_x
          s.light_rotation_z (e.x - s.prev_mouse_x) (e.y - s.prev_mouse_y)).2,
        prev_mouse_x := e.x, prev_mouse_y := e.y }) ∧
    (Project5.mouse_callback
        { e with left := true, left_alt := false, left_control := false } s =
      { s with
        object_camera_rotation_x := (Project5.move_rotation s.object_camera_rotation_x
          s.object_camera_rotation_z (e.x - s.prev_mouse_x) (e.y - s.prev_mouse_y)).1,
        object_camera_rotation_z := (Project5.move_rotation s.object_camera_rotation_x
          s.object_camera_rotation_z (e.x - s.prev_mouse_x) (e.y - s.prev_mouse_y)).2,
        prev_mouse_x := e.x, prev_mouse_y := e.y }) ∧
    (Project5.mouse_callback
        { e with left := false, right := true, left_alt := true } s =
      { s with
        plane_camera_distance :=
          Project5.move_distance s.plane_camera_distance (e.y - s.prev_mouse_y),
        prev_mouse_x := e.x, prev_mouse_y := e.y }) ∧
    (Project5.mouse_callback
        { e with left := false, right := true, left_alt := false } s =
      { s with
        object_camera_distance :=
          Project5.move_distance s.object_camera_distance (e.y - s.prev_mouse_y),
        prev_mouse_x := e.x, prev_mouse_y := e.y }) := by
  unfold Project5.mouse_callback
  dsimp only
  refine ⟨?_, ?_, ?_, ?_, ?_⟩
  · rw [if_pos rfl, if_pos rfl]
  · rw [if_pos rfl, if_neg Bool.false_ne_true, if_pos rfl]
  · rw [if_pos rfl, if_neg Bool.false_ne_true, if_neg Bool.false_ne_true]
  · rw [if_neg Bool.false_ne_true, if_pos rfl, if_pos rfl]
  · rw [if_neg Bool.false_ne_true, if_pos rfl, if_neg Bool.false_ne_true]

/-- C18: rig state is mutated only by the pointer callback: in project 8, for
every key, action and modifier, `key_callback` leaves `camera_rotation_x`,
`camera_rotation_y`, `camera_distance`, `light_rotation_x`, `light_rotation_y`
and `light_distance` unchanged. -/
theorem p8_key_callback_rig_unchanged (key scancode action mods : Int)
    (s : Project8.State) :
    (Project8.key_callback ⟨key, scancode, action, mods⟩ s).camera_rotation_x
      = s.camera_rotation_x ∧
    (Project8.key_callback ⟨key, scancode, action, mods⟩ s).camera_rotation_y
      = s.camera_rotation_y ∧
    (Project8.key_callback ⟨key, scancode, action, mods⟩ s).camera_distance
      = s.camera_distance ∧
    (Project8.key_callback ⟨key, scancode, action, mods⟩ s).light_rotation_x
      = s.light_rotation_x ∧
    (Project8.key_callback ⟨key, scancode, action, mods⟩ s).light_rotation_y
      = s.light_rotation_y ∧
    (Project8.key_callback ⟨key, scancode, action, mods⟩ s).light_distance
      = s.light_distance := by
  unfold Project8.key_callback
  dsimp only
  by_cases hp : action = GLFW_PRESS
  · rw [if_pos hp]
    split_ifs <;> exact ⟨rfl, rfl, rfl, rfl, rfl, rfl⟩
  · rw [if_neg hp]
    exact ⟨rfl, rfl, rfl, rfl, rfl, rfl⟩

/-! ## The argument-count check -/

/-- C19: the argument-count check rejects exactly the wrong counts: in
projects 2 to 7 the first statement of `main` exits with failure status if and
only if `argc != 2`, and in project 8 if and only if `argc < 2` or `argc > 3`;
for every other count `main` goes on. -/
theorem main_arg_check_rejects_wrong_counts (argc : Int) :
    ((Project2.main_arg_check argc = some EXIT_FAILURE ↔ argc ≠ 2) ∧
      (Project3.main_arg_check argc = some EXIT_FAILURE ↔ argc ≠ 2) ∧
      (Project4.main_arg_check argc = some EXIT_FAILURE ↔ argc ≠ 2) ∧
      (Project5.main_arg_check argc = some EXIT_FAILURE ↔ argc ≠ 2) ∧
      (Project6.main_arg_check argc = some EXIT_FAILURE ↔ argc ≠ 2) ∧
      (Project7.main_arg_check argc = some EXIT_FAILURE ↔ argc ≠ 2) ∧
      (Project8.main_arg_check argc = some EXIT_FAILURE ↔ (argc < 2 ∨ argc > 3))) ∧
    ((Project2.main_arg_check argc = none ↔ argc = 2) ∧
      (Project3.main_arg_check argc = none ↔ argc = 2) ∧
      (Project4.main_arg_check argc = none ↔ argc = 2) ∧
      (Project5.main_arg_check argc = none ↔ argc = 2) ∧
      (Project6.main_arg_check argc = none ↔ argc = 2) ∧
      (Project7.main_arg_check argc = none ↔ argc = 2) ∧
      (Project8.main_arg_check argc = none ↔ (argc = 2 ∨ argc = 3))) ∧
    EXIT_FAILURE ≠ 0 := by
  unfold Project2.main_arg_check Project3.main_arg_check Project4.main_arg_check
    Project5.main_arg_check Project6.main_arg_check Project7.main_arg_check
    Project8.main_arg_check
  refine ⟨⟨?_, ?_, ?_, ?_, ?_, ?_, ?_⟩, ⟨?_, ?_, ?_, ?_, ?_, ?_, ?_⟩, by decide⟩ <;>
    split_ifs <;> simp <;> omega

/-! ## The bias and scale of the shadow transform -/

/-- The bias-and-scale factor sends `(x, y, z, 1)` to
`(0.5 x + 0.5, 0.5 y + 0.5, 0.5 z + 0.499, 1)`. -/
theorem shadow_bias_and_scale_apply (x y z : ℝ) :
    shadow_bias_and_scale.mulVec (point4 x y z) =
      ![0.5 * x + 0.5, 0.5 * y + 0.5, 0.5 * z + 0.499, 1] := by
  unfold shadow_bias_and_scale Matrix4f.Translation Matrix4f.Scale point4
  ext i
  fin_cases i <;>
    simp [Matrix.mulVec, Matrix.mul_apply, Fin.sum_univ_four, Matrix.dotProduct]

/-- The shadow transforms of projects 7 and 8 apply the bias-and-scale factor
to the light-view image of a point. -/
theorem shadow_transform_apply (light_view_transform : Matrix4f) (w : Fin 4 → ℝ) :
    (Project7.shadow_transform light_view_transform).mulVec w =
        shadow_bias_and_scale.mulVec (light_view_transform.mulVec w) ∧
      (Project8.shadow_transform light_view_transform).mulVec w =
        shadow_bias_and_scale.mulVec (light_view_transform.mulVec w) := by
  unfold Project7.shadow_transform Project8.shadow_transform shadow_bias_and_scale
  constructor <;> rw [Matrix.mulVec_mulVec]

/-- Counterexample to C20: the clip-space point `(0, 0, -1, 1)` on the near
plane is sent to depth `-0.001`, outside `[0, 1]`. -/
theorem shadow_bias_leaves_unit_range :
    (-1 : ℝ) ≤ 0 ∧ (0 : ℝ) ≤ 1 ∧ (-1 : ℝ) ≤ -1 ∧ (-1 : ℝ) ≤ 1 ∧
      shadow_bias_and_scale.mulVec (point4 0 0 (-1)) 2 = -0.001 ∧
      ¬ (0 ≤ shadow_bias_and_scale.mulVec (point4 0 0 (-1)) 2) := by
  have h2 : shadow_bias_and_scale.mulVec (point4 0 0 (-1)) 2 = -0.001 := by
    rw [shadow_bias_and_scale_apply]
    norm_num
  refine ⟨by norm_num, by norm_num, by norm_num, by norm_num, h2, ?_⟩
  rw [h2]
  norm_num

/-- C20 (amended): the bias-and-scale matrix of the shadow transform maps the
x and y of clip space `[-1, 1]` to texture space `[0, 1]` and the depth to
`[-0.001, 0.999]`: for every point (x, y, z, 1) with x, y, z in `[-1, 1]` the
image is `(0.5 x + 0.5, 0.5 y + 0.5, 0.5 z + 0.499, 1)`, its first two
coordinates lie in `[0, 1]` and its third in `[-0.001, 0.999]`. -/
theorem shadow_bias_and_scale_range (x y z : ℝ)
    (hx : -1 ≤ x ∧ x ≤ 1) (hy : -1 ≤ y ∧ y ≤ 1) (hz : -1 ≤ z ∧ z ≤ 1) :
    (0 ≤ shadow_bias_and_scale.mulVec (point4 x y z) 0 ∧
      shadow_bias_and_scale.mulVec (point4 x y z) 0 ≤ 1) ∧
    (0 ≤ shadow_bias_and_scale.mulVec (point4 x y z) 1 ∧
      shadow_bias_and_scale.mulVec (point4 x y z) 1 ≤ 1) ∧
    (-0.001 ≤ shadow_bias_and_scale.mulVec (point4 x y z) 2 ∧
      shadow_bias_and_scale.mulVec (point4 x y z) 2 ≤ 0.999) ∧
    shadow_bias_and_scale.mulVec (point4 x y z) 3 = 1 := by
  obtain ⟨hx0, hx1⟩ := hx
  obtain ⟨hy0, hy1⟩ := hy
  obtain ⟨hz0, hz1⟩ := hz
  rw [shadow_bias_and_scale_apply]
  simp only [Matrix.cons_val_zero, Matrix.cons_val_one, Matrix.head_cons,
    Matrix.cons_val_two, Matrix.tail_cons, Matrix.cons_val_three]
  refine ⟨⟨?_, ?_⟩, ⟨?_, ?_⟩, ⟨?_, ?_⟩, ?_⟩ <;> first | trivial | linarith

/-- Witness for C20 (amended): the near-plane point `(0, 0, -1, 1)`. -/
theorem shadow_bias_and_scale_range_witness :
    (0 ≤ shadow_bias_and_scale.mulVec (point4 0 0 (-1)) 0 ∧
      shadow_bias_and_scale.mulVec (point4 0 0 (-1)) 0 ≤ 1) ∧
    (0 ≤ shadow_bias_and_scale.mulVec (point4 0 0 (-1)) 1 ∧
      shadow_bias_and_scale.mulVec (point4 0 0 (-1)) 1 ≤ 1) ∧
    (-0.001 ≤ shadow_bias_and_scale.mulVec (point4 0 0 (-1)) 2 ∧
      shadow_bias_and_scale.mulVec (point4 0 0 (-1)) 2 ≤ 0.999) ∧
    shadow_bias_and_scale.mulVec (point4 0 0 (-1)) 3 = 1 :=
  shadow_bias_and_scale_range 0 0 (-1) (by norm_num) (by norm_num) (by norm_num)

/-! ## The normal transform -/

/-- The upper 3x3 submatrix of a product is the product of the upper 3x3
submatrices when the right factor has a last row of the form `(0, 0, 0, w)`. -/
theorem GetSubMatrix3_mul (a b : Matrix4f) (hb : ∀ j : Fin 3, b 3 (Fin.castSucc j) = 0) :
    Matrix4f.GetSubMatrix3 (a * b) = Matrix4f.GetSubMatrix3 a * Matrix4f.GetSubMatrix3 b := by
  ext i j
  simp only [Matrix4f.GetSubMatrix3, Matrix.of_apply, Matrix.mul_apply]
  rw [Fin.sum_univ_castSucc]
  have hlast : b (Fin.last 3) (Fin.castSucc j) = 0 := hb j
  rw [hlast, mul_zero, add_zero]

/-- A translation has last row `(0, 0, 0, 1)`. -/
theorem Translation_last_row (v : Vec3f) (j : Fin 3) :
    Matrix4f.Translation v 3 (Fin.castSucc j) = 0 := by
  unfold Matrix4f.Translation
  fin_cases j <;> rfl

/-- A rotation about X has last row `(0, 0, 0, 1)`. -/
theorem RotationX_last_row (theta : ℝ) (j : Fin 3) :
    Matrix4f.RotationX theta 3 (Fin.castSucc j) = 0 := by
  unfold Matrix4f.RotationX
  fin_cases j <;> rfl

/-- A rotation about Z has last row `(0, 0, 0, 1)`. -/
theorem RotationZ_last_row (theta : ℝ) (j : Fin 3) :
    Matrix4f.RotationZ theta 3 (Fin.castSucc j) = 0 := by
  unfold Matrix4f.RotationZ
  fin_cases j <;> rfl

/-- The upper 3x3 submatrix of a translation is the identity. -/
theorem GetSubMatrix3_Translation (v : Vec3f) :
    Matrix4f.GetSubMatrix3 (Matrix4f.Translation v) = 1 := by
  have h2 : Fin.castSucc (2 : Fin 3) = (2 : Fin 4) := rfl
  unfold Matrix4f.GetSubMatrix3 Matrix4f.Translation
  ext i j
  fin_cases i <;> fin_cases j <;> simp [Matrix.one_apply, h2]
  all_goals rfl

/-- The upper 3x3 submatrix of the perspective projection is diagonal. -/
theorem GetSubMatrix3_Perspective (fov aspect znear zfar : ℝ) :
    Matrix4f.GetSubMatrix3 (Matrix4f.Perspective fov aspect znear zfar) =
      Matrix.diagonal (perspective_scale fov aspect znear zfar) := by
  have h2 : Fin.castSucc (2 : Fin 3) = (2 : Fin 4) := rfl
  unfold Matrix4f.GetSubMatrix3 Matrix4f.Perspective perspective_scale
  ext i j
  fin_cases i <;> fin_cases j <;> simp [Matrix.diagonal_apply, h2]
  all_goals rfl

/-- The upper 3x3 submatrix of a rotation about X times its transpose is the
identity. -/
theorem GetSubMatrix3_RotationX_orthogonal (theta : ℝ) :
    Matrix4f.GetSubMatrix3 (Matrix4f.RotationX theta) *
      (Matrix4f.GetSubMatrix3 (Matrix4f.RotationX theta)).transpose = 1 := by
  have hsq := Real.sin_sq_add_cos_sq theta
  have h2 : Fin.castSucc (2 : Fin 3) = (2 : Fin 4) := rfl
  unfold Matrix4f.GetSubMatrix3 Matrix4f.RotationX
  ext i j
  fin_cases i <;> fin_cases j <;>
    simp [Matrix.mul_apply, Fin.sum_univ_succ, Matrix.one_apply, Matrix.transpose_apply, h2]
  all_goals first | rfl | nlinarith [hsq]

/-- The upper 3x3 submatrix of a rotation about Z times its transpose is the
identity. -/
theorem GetSubMatrix3_RotationZ_orthogonal (theta : ℝ) :
    Matrix4f.GetSubMatrix3 (Matrix4f.RotationZ theta) *
      (Matrix4f.GetSubMatrix3 (Matrix4f.RotationZ theta)).transpose = 1 := by
  have hsq := Real.sin_sq_add_cos_sq theta
  have h2 : Fin.castSucc (2 : Fin 3) = (2 : Fin 4) := rfl
  unfold Matrix4f.GetSubMatrix3 Matrix4f.RotationZ
  ext i j
  fin_cases i <;> fin_cases j <;>
    simp [Matrix.mul_apply, Fin.sum_univ_succ, Matrix.one_apply, Matrix.transpose_apply, h2]
  all_goals first | rfl | nlinarith [hsq]

/-- The rotation factor is the product of the two rotation submatrices. -/
theorem rotation_part_eq (rx rz : ℝ) :
    rotation_part rx rz =
      Matrix4f.GetSubMatrix3 (Matrix4f.RotationX rx) *
        Matrix4f.GetSubMatrix3 (Matrix4f.RotationZ rz) := by
  unfold rotation_part
  exact GetSubMatrix3_mul _ _ (RotationZ_last_row rz)

/-- The rotation factor times its transpose is the identity. -/
theorem rotation_part_orthogonal (rx rz : ℝ) :
    rotation_part rx rz * (rotation_part rx rz).transpose = 1 := by
  rw [rotation_part_eq, Matrix.transpose_mul]
  calc Matrix4f.GetSubMatrix3 (Matrix4f.RotationX rx) *
        Matrix4f.GetSubMatrix3 (Matrix4f.RotationZ rz) *
        ((Matrix4f.GetSubMatrix3 (Matrix4f.RotationZ rz)).transpose *
          (Matrix4f.GetSubMatrix3 (Matrix4f.RotationX rx)).transpose)
      = Matrix4f.GetSubMatrix3 (Matrix4f.RotationX rx) *
          (Matrix4f.GetSubMatrix3 (Matrix4f.RotationZ rz) *
            (Matrix4f.GetSubMatrix3 (Matrix4f.RotationZ rz)).transpose) *
          (Matrix4f.GetSubMatrix3 (Matrix4f.RotationX rx)).transpose := by
        simp only [Matrix.mul_assoc]
    _ = 1 := by
        rw [GetSubMatrix3_RotationZ_orthogonal, Matrix.mul_one,
          GetSubMatrix3_RotationX_orthogonal]

/-- For a diagonal matrix with nonzero entries and a matrix `r` with
`r * r^T = 1`, the inverse transpose of `diagonal d * r` is
`diagonal (1 / d) * r`. -/
theorem inverse_transpose_diagonal_mul (d : Fin 3 → ℝ) (r : Matrix3f)
    (hd : ∀ i, d i ≠ 0) (hr : r * r.transpose = 1) :
    Matrix3f.GetTranspose (Matrix3f.GetInverse (Matrix.diagonal d * r)) =
      Matrix.diagonal (fun i => (d i)⁻¹) * r := by
  have hdd : Matrix.diagonal d * Matrix.diagonal (fun i => (d i)⁻¹) = (1 : Matrix3f) := by
    rw [Matrix.diagonal_mul_diagonal]
    have hone : (fun i => d i * (d i)⁻¹) = fun _ => (1 : ℝ) := by
      funext i
      exact mul_inv_cancel₀ (hd i)
    rw [hone, Matrix.diagonal_one]
  have hinv : (Matrix.diagonal d * r) *
      (r.transpose * Matrix.diagonal (fun i => (d i)⁻¹)) = 1 := by
    calc (Matrix.diagonal d * r) * (r.transpose * Matrix.diagonal (fun i => (d i)⁻¹))
        = Matrix.diagonal d * (r * r.transpose) * Matrix.diagonal (fun i => (d i)⁻¹) := by
          simp only [Matrix.mul_assoc]
      _ = 1 := by rw [hr, Matrix.mul_one, hdd]
  unfold Matrix3f.GetTranspose Matrix3f.GetInverse
  rw [Matrix.inv_eq_right_inv hinv, Matrix.transpose_mul, Matrix.transpose_transpose,
    Matrix.diagonal_transpose]

/-- The upper 3x3 submatrix of `p * Translation * RotationX * RotationZ *
Translation` is the upper 3x3 submatrix of `p` times the rotation factor. -/
theorem GetSubMatrix3_pipeline (p : Matrix4f) (t c : Vec3f) (rx rz : ℝ) :
    Matrix4f.GetSubMatrix3 (p * Matrix4f.Translation t * Matrix4f.RotationX rx *
      Matrix4f.RotationZ rz * Matrix4f.Translation c) =
      Matrix4f.GetSubMatrix3 p * rotation_part rx rz := by
  rw [GetSubMatrix3_mul _ _ (Translation_last_row c), GetSubMatrix3_Translation,
    Matrix.mul_one, GetSubMatrix3_mul _ _ (RotationZ_last_row rz),
    GetSubMatrix3_mul _ _ (RotationX_last_row rx),
    GetSubMatrix3_mul _ _ (Translation_last_row t), GetSubMatrix3_Translation,
    Matrix.mul_one, rotation_part_eq, Matrix.mul_assoc]

/-- The vertical scale of the projection with field of view `2 pi / 5` is
positive. -/
theorem tan_fifth_pi_pos : 0 < Real.tan ((2 / 5) * Real.pi * 0.5) := by
  have hpi := Real.pi_pos
  apply Real.tan_pos_of_pos_of_lt_pi_div_two
  · nlinarith
  · nlinarith

/-- The three scales of a projection with field of view `2 pi / 5`, a nonzero
aspect ratio and near and far planes with `zfar + znear` and `znear - zfar`
nonzero are nonzero. -/
theorem perspective_scale_ne_zero (aspect znear zfar : ℝ) (ha : aspect ≠ 0)
    (hsum : zfar + znear ≠ 0) (hdif : znear - zfar ≠ 0) (i : Fin 3) :
    perspective_scale ((2 / 5) * Real.pi) aspect znear zfar i ≠ 0 := by
  have ht := ne_of_gt tan_fifth_pi_pos
  have hy : 1 / Real.tan ((2 / 5) * Real.pi * 0.5) ≠ 0 := one_div_ne_zero ht
  unfold perspective_scale
  fin_cases i
  · exact div_ne_zero hy ha
  · exact hy
  · exact div_ne_zero hsum hdif

/-- The submatrix and the normal transform of project 5, factored. -/
theorem p5_normal_transform_factors (mesh_center : Vec3f) (s : Project5.State) :
    Matrix4f.GetSubMatrix3 (Project5.object_position_transform mesh_center s) =
        Matrix.diagonal (perspective_scale ((2 / 5) * Real.pi) 1 0.05 100) *
          rotation_part s.object_camera_rotation_x s.object_camera_rotation_z ∧
      Project5.normal_transform mesh_center s =
        Matrix.diagonal (fun i => (perspective_scale ((2 / 5) * Real.pi) 1 0.05 100 i)⁻¹) *
          rotation_part s.object_camera_rotation_x s.object_camera_rotation_z := by
  have hsub : Matrix4f.GetSubMatrix3 (Project5.object_position_transform mesh_center s) =
      Matrix.diagonal (perspective_scale ((2 / 5) * Real.pi) 1 0.05 100) *
        rotation_part s.object_camera_rotation_x s.object_camera_rotation_z := by
    unfold Project5.object_position_transform
    rw [GetSubMatrix3_pipeline, GetSubMatrix3_Perspective]
  refine ⟨hsub, ?_⟩
  unfold Project5.normal_transform
  rw [hsub]
  exact inverse_transpose_diagonal_mul _ _
    (perspective_scale_ne_zero 1 0.05 100 one_ne_zero (by norm_num) (by norm_num))
    (rotation_part_orthogonal _ _)

/-- The submatrix and the normal transform of project 3 in perspective mode
with a nonzero aspect ratio, factored. -/
theorem p3_normal_transform_factors (mesh_center : Vec3f) (s : Project3.State)
    (hpersp : s.perspective = true) (ha : s.aspect_ratio ≠ 0) :
    Matrix4f.GetSubMatrix3 (Project3.position_transform mesh_center s) =
        Matrix.diagonal (perspective_scale ((2 / 5) * Real.pi) s.aspect_ratio 0.5 100) *
          rotation_part s.camera_rotation_x s.camera_rotation_z ∧
      Project3.normal_transform mesh_center s =
        Matrix.diagonal
            (fun i => (perspective_scale ((2 / 5) * Real.pi) s.aspect_ratio 0.5 100 i)⁻¹) *
          rotation_part s.camera_rotation_x s.camera_rotation_z := by
  have hsub : Matrix4f.GetSubMatrix3 (Project3.position_transform mesh_center s) =
      Matrix.diagonal (perspective_scale ((2 / 5) * Real.pi) s.aspect_ratio 0.5 100) *
        rotation_part s.camera_rotation_x s.camera_rotation_z := by
    unfold Project3.position_transform Project3.projection
    dsimp only
    rw [if_pos hpersp, ← Matrix.mul_assoc, ← Matrix.mul_assoc, GetSubMatrix3_pipeline,
      GetSubMatrix3_Perspective]
  refine ⟨hsub, ?_⟩
  unfold Project3.normal_transform
  rw [hsub]
  exact inverse_transpose_diagonal_mul _ _
    (perspective_scale_ne_zero s.aspect_ratio 0.5 100 ha (by norm_num) (by norm_num))
    (rotation_part_orthogonal _ _)

/-- With both angles zero the rotation factor has a 1 in its last diagonal
entry. -/
theorem rotation_part_zero_entry : rotation_part 0 0 2 2 = 1 := by
  have h2 : Fin.castSucc (2 : Fin 3) = (2 : Fin 4) := rfl
  unfold rotation_part Matrix4f.GetSubMatrix3 Matrix4f.RotationX Matrix4f.RotationZ
  simp [Matrix.mul_apply, Fin.sum_univ_succ, h2]

/-- Counterexample to C21: in project 5, with the initial rig (both angles 0)
and the mesh centred at the origin, the normal transform differs from the
upper 3x3 submatrix of `object_position_transform`: their depth entries are
`-99.95 / 100.05` and `-100.05 / 99.95`. -/
theorem p5_normal_transform_differs :
    Project5.normal_transform ⟨0, 0, 0⟩ (Project5.main_init ⟨-1, -1, -1⟩ ⟨1, 1, 1⟩) ≠
      Matrix4f.GetSubMatrix3
        (Project5.object_position_transform ⟨0, 0, 0⟩
          (Project5.main_init ⟨-1, -1, -1⟩ ⟨1, 1, 1⟩)) := by
  obtain ⟨hsub, hnorm⟩ :=
    p5_normal_transform_factors ⟨0, 0, 0⟩ (Project5.main_init ⟨-1, -1, -1⟩ ⟨1, 1, 1⟩)
  intro heq
  rw [hsub, hnorm] at heq
  have hentry := congrFun (congrFun heq 2) 2
  rw [Matrix.diagonal_mul, Matrix.diagonal_mul] at hentry
  have hrot : rotation_part
      (Project5.main_init ⟨-1, -1, -1⟩ ⟨1, 1, 1⟩).object_camera_rotation_x
      (Project5.main_init ⟨-1, -1, -1⟩ ⟨1, 1, 1⟩).object_camera_rotation_z 2 2 = 1 :=
    rotation_part_zero_entry
  rw [hrot] at hentry
  have hscale : perspective_scale ((2 / 5) * Real.pi) 1 0.05 100 2 = -100.05 / 99.95 := by
    unfold perspective_scale
    simp
    norm_num
  rw [hscale] at hentry
  norm_num at hentry

/-- C21 (amended): in the per-frame pipeline (project 5, and project 3 in
perspective mode with a nonzero aspect ratio) the combined position transform
is projection times translations and rotations, so its upper 3x3 submatrix is
`D * R`, with `R` the rotation factor (the upper 3x3 of
`RotationX * RotationZ`) and `D` the diagonal upper 3x3 of the perspective
projection; the normal transform, the inverse-transpose of that submatrix, is
`D^-1 * R`. What coincides with its own inverse-transpose is the rotation
factor `R` alone, which is also the upper 3x3 submatrix of the pure
rotation/translation part `Translation * RotationX * RotationZ *
Translation`. -/
theorem normal_transform_is_inverse_scale_times_rotation (mesh_center t : Vec3f)
    (s5 : Project5.State) (s3 : Project3.State) (rx rz : ℝ) :
    (Matrix4f.GetSubMatrix3 (Project5.object_position_transform mesh_center s5) =
        Matrix.diagonal (perspective_scale ((2 / 5) * Real.pi) 1 0.05 100) *
          rotation_part s5.object_camera_rotation_x s5.object_camera_rotation_z ∧
      Project5.normal_transform mesh_center s5 =
        Matrix.diagonal (fun i => (perspective_scale ((2 / 5) * Real.pi) 1 0.05 100 i)⁻¹) *
          rotation_part s5.object_camera_rotation_x s5.object_camera_rotation_z) ∧
    (s3.perspective = true → s3.aspect_ratio ≠ 0 →
      Matrix4f.GetSubMatrix3 (Project3.position_transform mesh_center s3) =
          Matrix.diagonal (perspective_scale ((2 / 5) * Real.pi) s3.aspect_ratio 0.5 100) *
            rotation_part s3.camera_rotation_x s3.camera_rotation_z ∧
        Project3.normal_transform mesh_center s3 =
          Matrix.diagonal
              (fun i => (perspective_scale ((2 / 5) * Real.pi) s3.aspect_ratio 0.5 100 i)⁻¹) *
            rotation_part s3.camera_rotation_x s3.camera_rotation_z) ∧
    (Matrix4f.GetSubMatrix3 (Matrix4f.Translation t * Matrix4f.RotationX rx *
        Matrix4f.RotationZ rz * Matrix4f.Translation mesh_center.neg) = rotation_part rx rz ∧
      Matrix3f.GetTranspose (Matrix3f.GetInverse (rotation_part rx rz)) =
        rotation_part rx rz) := by
  refine ⟨p5_normal_transform_factors mesh_center s5, ?_, ?_, ?_⟩
  · intro hpersp ha
    exact p3_normal_transform_factors mesh_center s3 hpersp ha
  · rw [GetSubMatrix3_mul _ _ (Translation_last_row mesh_center.neg),
      GetSubMatrix3_Translation, Matrix.mul_one,
      GetSubMatrix3_mul _ _ (RotationZ_last_row rz),
      GetSubMatrix3_mul _ _ (RotationX_last_row rx), GetSubMatrix3_Translation,
      Matrix.one_mul, rotation_part_eq]
  · unfold Matrix3f.GetTranspose Matrix3f.GetInverse
    rw [Matrix.inv_eq_right_inv (rotation_part_orthogonal rx rz), Matrix.transpose_transpose]

/-- Witness for C21 (amended): project 3 in perspective mode with aspect ratio
16/9, camera at distance 5 with both angles 0. -/
theorem normal_transform_is_inverse_scale_times_rotation_witness :
    Matrix4f.GetSubMatrix3 (Project3.position_transform ⟨0, 0, 0⟩
        ⟨0, 0, 0, 0, 5, true, 0, 0, 16 / 9⟩) =
      Matrix.diagonal (perspective_scale ((2 / 5) * Real.pi) (16 / 9) 0.5 100) *
        rotation_part 0 0 ∧
    Project3.normal_transform ⟨0, 0, 0⟩ ⟨0, 0, 0, 0, 5, true, 0, 0, 16 / 9⟩ =
      Matrix.diagonal
          (fun i => (perspective_scale ((2 / 5) * Real.pi) (16 / 9) 0.5 100 i)⁻¹) *
        rotation_part 0 0 :=
  (normal_transform_is_inverse_scale_times_rotation ⟨0, 0, 0⟩ ⟨0, 0, 0⟩
    (Project5.main_init ⟨-1, -1, -1⟩ ⟨1, 1, 1⟩)
    ⟨0, 0, 0, 0, 5, true, 0, 0, 16 / 9⟩ 0 0).2.1 rfl (by norm_num)

/-! ## The keyboard of project 8 -/

/-- C22: in project 8's `key_callback` only a press of ESCAPE, F6, SPACE,
RIGHT or LEFT has any effect: every event whose action is not press, and every
press of any other key, leaves the state (so also `wireframe_mode` and
`tessellation_level`) unchanged; a SPACE press changes only `wireframe_mode`,
negating it, and a RIGHT or LEFT press changes only `tessellation_level`. -/
theorem p8_key_callback_effects (k : KeyEvent) (s : Project8.State) :
    (k.action ≠ GLFW_PRESS → Project8.key_callback k s = s) ∧
    (k.key ≠ GLFW_KEY_ESCAPE → k.key ≠ GLFW_KEY_F6 → k.key ≠ GLFW_KEY_SPACE →
      k.key ≠ GLFW_KEY_RIGHT → k.key ≠ GLFW_KEY_LEFT → Project8.key_callback k s = s) ∧
    (Project8.key_callback { k with key := GLFW_KEY_SPACE, action := GLFW_PRESS } s =
      { s with wireframe_mode := !s.wireframe_mode }) ∧
    (Project8.key_callback { k with key := GLFW_KEY_RIGHT, action := GLFW_PRESS } s =
      { s with tessellation_level :=
          if s.tessellation_level * 2 > 64 then 64 else s.tessellation_level * 2 }) ∧
    (Project8.key_callback { k with key := GLFW_KEY_LEFT, action := GLFW_PRESS } s =
      { s with tessellation_level :=
          if Int.tdiv s.tessellation_level 2 < 1 then 1
          else Int.tdiv s.tessellation_level 2 }) := by
  refine ⟨?_, ?_, ?_, ?_, ?_⟩
  · intro hrel
    unfold Project8.key_callback
    rw [if_neg hrel]
  · intro h1 h2 h3 h4 h5
    unfold Project8.key_callback
    rw [if_neg h1, if_neg h2, if_neg h3, if_neg h4, if_neg h5]
    split_ifs <;> rfl
  · unfold Project8.key_callback
    dsimp only
    rw [if_pos rfl, if_neg (by decide), if_neg (by decide), if_pos rfl]
  · unfold Project8.key_callback
    dsimp only
    rw [if_pos rfl, if_neg (by decide), if_neg (by decide), if_neg (by decide), if_pos rfl]
    split_ifs <;> rfl
  · unfold Project8.key_callback
    dsimp only
    rw [if_pos rfl, if_neg (by decide), if_neg (by decide), if_neg (by decide),
      if_neg (by decide), if_pos rfl]
    split_ifs <;> rfl

/-- Witness for C22: a release of the RIGHT key and a press of the key `A`
(code 65) change nothing in `main`'s initial state. -/
theorem p8_key_callback_effects_witness :
    Project8.key_callback ⟨262, 0, 0, 0⟩ Project8.main_init = Project8.main_init ∧
      Project8.key_callback ⟨65, 0, 1, 0⟩ Project8.main_init = Project8.main_init :=
  ⟨(p8_key_callback_effects ⟨262, 0, 0, 0⟩ Project8.main_init).1 (by decide),
    (p8_key_callback_effects ⟨65, 0, 1, 0⟩ Project8.main_init).2.1
      (by decide) (by decide) (by decide) (by decide) (by decide)⟩

/-- The level after a RIGHT press. -/
theorem p8_right_press_level (k : KeyEvent) (s : Project8.State) :
    (Project8.key_callback { k with key := GLFW_KEY_RIGHT, action := GLFW_PRESS } s).tessellation_level
      = if s.tessellation_level * 2 > 64 then 64 else s.tessellation_level * 2 := by
  unfold Project8.key_callback
  dsimp only
  rw [if_pos rfl, if_neg (by decide), if_neg (by decide), if_neg (by decide), if_pos rfl]
  split_ifs <;> rfl

/-- The level after a LEFT press. -/
theorem p8_left_press_level (k : KeyEvent) (s : Project8.State) :
    (Project8.key_callback { k with key := GLFW_KEY_LEFT, action := GLFW_PRESS } s).tessellation_level
      = if Int.tdiv s.tessellation_level 2 < 1 then 1 else Int.tdiv s.tessellation_level 2 := by
  unfold Project8.key_callback
  dsimp only
  rw [if_pos rfl, if_neg (by decide), if_neg (by decide), if_neg (by decide),
    if_neg (by decide), if_pos rfl]
  split_ifs <;> rfl

/-- C27: in project 8 the two arrow keys undo each other away from the limits:
for every `tessellation_level` in {1, 2, 4, 8, 16, 32} a RIGHT press followed
by a LEFT press restores the level, and for every level in {2, 4, 8, 16, 32,
64} a LEFT press followed by a RIGHT press restores it; at the limits the
level saturates (RIGHT at 64 stays 64, LEFT at 1 stays 1). -/
theorem p8_arrow_keys_undo (k k' : KeyEvent) (s : Project8.State) :
    (s.tessellation_level ∈ [(1 : Int), 2, 4, 8, 16, 32] →
      (Project8.key_callback { k' with key := GLFW_KEY_LEFT, action := GLFW_PRESS }
        (Project8.key_callback { k with key := GLFW_KEY_RIGHT, action := GLFW_PRESS }
          s)).tessellation_level = s.tessellation_level) ∧
    (s.tessellation_level ∈ [(2 : Int), 4, 8, 16, 32, 64] →
      (Project8.key_callback { k' with key := GLFW_KEY_RIGHT, action := GLFW_PRESS }
        (Project8.key_callback { k with key := GLFW_KEY_LEFT, action := GLFW_PRESS }
          s)).tessellation_level = s.tessellation_level) ∧
    (s.tessellation_level = 64 →
      (Project8.key_callback { k with key := GLFW_KEY_RIGHT, action := GLFW_PRESS }
        s).tessellation_level = 64) ∧
    (s.tessellation_level = 1 →
      (Project8.key_callback { k with key := GLFW_KEY_LEFT, action := GLFW_PRESS }
        s).tessellation_level = 1) := by
  refine ⟨?_, ?_, ?_, ?_⟩
  · intro h
    rw [p8_left_press_level, p8_right_press_level]
    simp only [List.mem_cons, List.mem_singleton, List.not_mem_nil, or_false] at h
    rcases h with h | h | h | h | h | h <;> rw [h] <;> decide
  · intro h
    rw [p8_right_press_level, p8_left_press_level]
    simp only [List.mem_cons, List.mem_singleton, List.not_mem_nil, or_false] at h
    rcases h with h | h | h | h | h | h <;> rw [h] <;> decide
  · intro h
    rw [p8_right_press_level, h]
    decide
  · intro h
    rw [p8_left_press_level, h]
    decide

/-- Witness for C27: from `main`'s initial level 1, RIGHT then LEFT gives 1
again, and LEFT alone stays at 1. -/
theorem p8_arrow_keys_undo_witness :
    (Project8.key_callback ⟨GLFW_KEY_LEFT, 0, GLFW_PRESS, 0⟩
        (Project8.key_callback ⟨GLFW_KEY_RIGHT, 0, GLFW_PRESS, 0⟩
          Project8.main_init)).tessellation_level = 1 ∧
      (Project8.key_callback ⟨GLFW_KEY_LEFT, 0, GLFW_PRESS, 0⟩
        Project8.main_init).tessellation_level = 1 :=
  ⟨(p8_arrow_keys_undo ⟨0, 0, 0, 0⟩ ⟨0, 0, 0, 0⟩ Project8.main_init).1 (by decide),
    (p8_arrow_keys_undo ⟨0, 0, 0, 0⟩ ⟨0, 0, 0, 0⟩ Project8.main_init).2.2.2 rfl⟩

/-- C28: in project 6's `mouse_callback` every pointer event, whatever the
button state, records the event's cursor position as the new previous
position, and an event with neither button pressed changes nothing else:
`camera_rotation_x`, `camera_rotation_y` and `camera_distance` are
unchanged. -/
theorem p6_mouse_callback_records_cursor (e : MouseEvent) (s : Project6.State) :
    ((Project6.mouse_callback e s).prev_mouse_x = e.x ∧
      (Project6.mouse_callback e s).prev_mouse_y = e.y) ∧
    Project6.mouse_callback { e with left := false, right := false } s =
      { s with prev_mouse_x := e.x, prev_mouse_y := e.y } := by
  constructor
  · unfold Project6.mouse_callback
    exact ⟨rfl, rfl⟩
  · unfold Project6.mouse_callback
    dsimp only
    rw [if_neg Bool.false_ne_true, if_neg Bool.false_ne_true]

/-! ## Periodicity and the three channels of `color_fader` -/

/-- For a non-negative dividend and a positive period, adding the period does
not change the truncated remainder. -/
theorem tmod_add_period (a period : Int) (ha : 0 ≤ a) (hp : 0 < period) :
    Int.tmod (a + period) period = Int.tmod a period := by
  rw [Int.tmod_eq_emod (by omega) (by omega), Int.tmod_eq_emod ha (by omega)]
  exact Int.add_emod_self

/-- C24: `color_fader` is periodic and depends only on `time + offset`: for
every period > 0 and every time, offset with `time + offset >= 0` (no integer
overflow in either call), `color_fader(time + period, offset, period)` equals
`color_fader(time, offset, period)`, which equals
`color_fader(time + offset, 0, period)`. -/
theorem color_fader_periodic (time offset period : Int) (hp : 0 < period)
    (hs : 0 ≤ time + offset) (h : no_int_overflow time offset period)
    (hnext : no_int_overflow (time + period) offset period) :
    color_fader (time + period) offset period = color_fader time offset period ∧
      color_fader time offset period = color_fader (time + offset) 0 period := by
  have hzero : no_int_overflow (time + offset) 0 period := by
    unfold no_int_overflow at h ⊢
    rw [Int.add_zero]
    exact h
  constructor
  · rw [color_fader_eq (time + period) offset period (by omega) hnext,
      color_fader_eq time offset period (by omega) h]
    have hsum : time + period + offset = (time + offset) + period := by ring
    rw [hsum, tmod_add_period (time + offset) period hs hp]
  · rw [color_fader_eq time offset period (by omega) h,
      color_fader_eq (time + offset) 0 period (by omega) hzero, Int.add_zero]

/-- Witness for C24: one period after time 1000 with offset 1500. -/
theorem color_fader_periodic_witness :
    color_fader (1000 + 4500) 1500 4500 = color_fader 1000 1500 4500 ∧
      color_fader 1000 1500 4500 = color_fader (1000 + 1500) 0 4500 :=
  color_fader_periodic 1000 1500 4500 (by decide) (by decide) (by decide) (by decide)

/-- Evaluation for C26: for the bounding box from `(-1, 0, -1)` to
`(1, 10, 1)`, a mesh 10 high standing on the plane y = 0, `main` computes
`max_box_dimension = 2`, while the largest of `|min[i]| + |max[i]|` is 10. -/
theorem max_box_dimension_misses_height :
    Project2.max_box_dimension ⟨-1, 0, -1⟩ ⟨1, 10, 1⟩ = 2 ∧
      Project2.largest_box_dimension ⟨-1, 0, -1⟩ ⟨1, 10, 1⟩ = 10 ∧
      Project2.max_box_dimension ⟨-1, 0, -1⟩ ⟨1, 10, 1⟩ ≠
        Project2.largest_box_dimension ⟨-1, 0, -1⟩ ⟨1, 10, 1⟩ := by
  have h1 : Project2.max_box_dimension ⟨-1, 0, -1⟩ ⟨1, 10, 1⟩ = 2 := by
    unfold Project2.max_box_dimension
    norm_num [abs_of_pos, abs_of_neg]
  have h2 : Project2.largest_box_dimension ⟨-1, 0, -1⟩ ⟨1, 10, 1⟩ = 10 := by
    unfold Project2.largest_box_dimension
    norm_num [abs_of_pos, abs_of_neg]
  refine ⟨h1, h2, ?_⟩
  rw [h1, h2]
  norm_num

/-! ## Rotations and translations undo each other -/

/-- A rotation about X followed by the rotation by the opposite angle is the
identity. -/
theorem RotationX_mul_neg (theta : ℝ) :
    Matrix4f.RotationX theta * Matrix4f.RotationX (-theta) = 1 := by
  have hsq := Real.sin_sq_add_cos_sq theta
  unfold Matrix4f.RotationX
  ext i j
  fin_cases i <;> fin_cases j <;>
    simp [Matrix.mul_apply, Fin.sum_univ_succ, Real.cos_neg, Real.sin_neg, Matrix.one_apply]
  all_goals nlinarith [hsq]

/-- A rotation about Y followed by the rotation by the opposite angle is the
identity. -/
theorem RotationY_mul_neg (theta : ℝ) :
    Matrix4f.RotationY theta * Matrix4f.RotationY (-theta) = 1 := by
  have hsq := Real.sin_sq_add_cos_sq theta
  unfold Matrix4f.RotationY
  ext i j
  fin_cases i <;> fin_cases j <;>
    simp [Matrix.mul_apply, Fin.sum_univ_succ, Real.cos_neg, Real.sin_neg, Matrix.one_apply]
  all_goals nlinarith [hsq]

/-- A translation along Z followed by the opposite translation is the
identity. -/
theorem Translation_z_mul_neg (d : ℝ) :
    Matrix4f.Translation ⟨0, 0, -d⟩ * Matrix4f.Translation ⟨0, 0, d⟩ = 1 := by
  unfold Matrix4f.Translation
  ext i j
  fin_cases i <;> fin_cases j <;>
    simp [Matrix.mul_apply, Fin.sum_univ_succ, Matrix.one_apply]

/-- The view matrix `Translation * RotationX * RotationY` times the placing
matrix `RotationY * RotationX * Translation` with opposite arguments is the
identity. -/
theorem view_mul_place (rx ry d : ℝ) :
    (Matrix4f.Translation ⟨0, 0, -d⟩ * Matrix4f.RotationX rx * Matrix4f.RotationY ry) *
      (Matrix4f.RotationY (-ry) * Matrix4f.RotationX (-rx) *
        Matrix4f.Translation ⟨0, 0, d⟩) = 1 := by
  calc (Matrix4f.Translation ⟨0, 0, -d⟩ * Matrix4f.RotationX rx * Matrix4f.RotationY ry) *
        (Matrix4f.RotationY (-ry) * Matrix4f.RotationX (-rx) *
          Matrix4f.Translation ⟨0, 0, d⟩)
      = Matrix4f.Translation ⟨0, 0, -d⟩ * (Matrix4f.RotationX rx *
          ((Matrix4f.RotationY ry * Matrix4f.RotationY (-ry)) * Matrix4f.RotationX (-rx))) *
          Matrix4f.Translation ⟨0, 0, d⟩ := by
        simp only [Matrix.mul_assoc]
    _ = Matrix4f.Translation ⟨0, 0, -d⟩ *
          (Matrix4f.RotationX rx * Matrix4f.RotationX (-rx)) *
          Matrix4f.Translation ⟨0, 0, d⟩ := by
        rw [RotationY_mul_neg, Matrix.one_mul]
    _ = 1 := by
        rw [RotationX_mul_neg, Matrix.mul_one, Translation_z_mul_neg]

/-- C29: in project 8 the matrices that place the camera and the light in the
world are the exact inverses of the corresponding view matrices: for all
angles rx, ry and distance d,
`(Translation(0,0,-d) * RotationX(rx) * RotationY(ry)) *
(RotationY(-ry) * RotationX(-rx) * Translation(0,0,d))` is the identity; so
`position_transform * camera_transform` and
`light_view_transform * light_transform` reduce to the projection alone, and
`camera_transform` (and `light_transform`) applied to the origin is the point
that the camera's (light's) view matrix maps to the origin. -/
theorem p8_place_inverts_view (aspect_ratio rx ry d : ℝ) (s : Project8.State) :
    (Matrix4f.Translation ⟨0, 0, -d⟩ * Matrix4f.RotationX rx * Matrix4f.RotationY ry) *
      (Matrix4f.RotationY (-ry) * Matrix4f.RotationX (-rx) *
        Matrix4f.Translation ⟨0, 0, d⟩) = 1 ∧
    Project8.position_transform aspect_ratio s * Project8.camera_transform s =
      Matrix4f.Perspective ((2 / 5) * Real.pi) aspect_ratio 0.5 200 ∧
    Project8.light_view_transform aspect_ratio s * Project8.light_transform s =
      Matrix4f.Perspective ((2 / 5) * Real.pi) aspect_ratio 0.5 200 ∧
    (Matrix4f.Translation ⟨0, 0, -s.camera_distance⟩ *
        Matrix4f.RotationX s.camera_rotation_x *
        Matrix4f.RotationY s.camera_rotation_y).mulVec
      ((Project8.camera_transform s).mulVec origin4) = origin4 ∧
    (Matrix4f.Translation ⟨0, 0, -s.light_distance⟩ *
        Matrix4f.RotationX s.light_rotation_x *
        Matrix4f.RotationY s.light_rotation_y).mulVec
      ((Project8.light_transform s).mulVec origin4) = origin4 := by
  refine ⟨view_mul_place rx ry d, ?_, ?_, ?_, ?_⟩
  · unfold Project8.position_transform Project8.camera_transform
    have h := view_mul_place s.camera_rotation_x s.camera_rotation_y s.camera_distance
    simp only [Matrix.mul_assoc] at h ⊢
    rw [h, Matrix.mul_one]
  · unfold Project8.light_view_transform Project8.light_transform
    have h := view_mul_place s.light_rotation_x s.light_rotation_y s.light_distance
    simp only [Matrix.mul_assoc] at h ⊢
    rw [h, Matrix.mul_one]
  · unfold Project8.camera_transform
    rw [Matrix.mulVec_mulVec, view_mul_place, Matrix.one_mulVec]
  · unfold Project8.light_transform
    rw [Matrix.mulVec_mulVec, view_mul_place, Matrix.one_mulVec]

/-! ## The texture transform of project 8 -/

/-- The texture transform sends `(x, y, z, 1)` to
`(x/120 + 0.5, y/120 + 0.5, z/120 + 0.5, 1)`. -/
theorem texture_transform_apply (x y z : ℝ) :
    Project8.texture_transform.mulVec (point4 x y z) =
      ![x / 120 + 0.5, y / 120 + 0.5, z / 120 + 0.5, 1] := by
  unfold Project8.texture_transform Matrix4f.Translation Matrix4f.Scale point4
  ext i
  fin_cases i <;>
    simp [Matrix.mulVec, Matrix.mul_apply, Fin.sum_univ_four, Matrix.dotProduct] <;>
    ring

/-- C30: in project 8 the texture transform
`Translation(0.5, 0.5, 0.5) * Scale(1/120)` maps every point of the plane
patch (x and z in `[-60, 60]`, y = 0) to texture coordinates
`(x/120 + 0.5, z/120 + 0.5)` that lie in `[0, 1] x [0, 1]`, and the four patch
corners of `plane_vertices` to the four corners of the unit square. -/
theorem p8_texture_coordinate_in_unit_square (x z : ℝ)
    (hx : -60 ≤ x ∧ x ≤ 60) (hz : -60 ≤ z ∧ z ≤ 60) :
    Project8.texture_coordinate ⟨x, 0, z⟩ = (x / 120 + 0.5, z / 120 + 0.5) ∧
    (0 ≤ (Project8.texture_coordinate ⟨x, 0, z⟩).1 ∧
      (Project8.texture_coordinate ⟨x, 0, z⟩).1 ≤ 1) ∧
    (0 ≤ (Project8.texture_coordinate ⟨x, 0, z⟩).2 ∧
      (Project8.texture_coordinate ⟨x, 0, z⟩).2 ≤ 1) ∧
    Project8.plane_vertices.map Project8.texture_coordinate =
      [(0, 1), (1, 1), (1, 0), (0, 0)] := by
  have hcoord : ∀ a c : ℝ,
      Project8.texture_coordinate ⟨a, 0, c⟩ = (a / 120 + 0.5, c / 120 + 0.5) := by
    intro a c
    unfold Project8.texture_coordinate
    dsimp only
    rw [texture_transform_apply]
    rfl
  obtain ⟨hx0, hx1⟩ := hx
  obtain ⟨hz0, hz1⟩ := hz
  refine ⟨hcoord x z, ?_, ?_, ?_⟩
  · rw [hcoord]
    constructor <;> dsimp only <;> linarith
  · rw [hcoord]
    constructor <;> dsimp only <;> linarith
  · unfold Project8.plane_vertices
    simp only [List.map_cons, List.map_nil, hcoord]
    norm_num

/-- Witness for C30: the corner `(-60, 0, 60)` of the patch goes to the corner
`(0, 1)` of the unit square. -/
theorem p8_texture_coordinate_in_unit_square_witness :
    Project8.texture_coordinate ⟨-60, 0, 60⟩ = (-60 / 120 + 0.5, 60 / 120 + 0.5) ∧
      (0 ≤ (Project8.texture_coordinate ⟨-60, 0, 60⟩).1 ∧
        (Project8.texture_coordinate ⟨-60, 0, 60⟩).1 ≤ 1) :=
  ⟨(p8_texture_coordinate_in_unit_square (-60) 60 (by norm_num) (by norm_num)).1,
    (p8_texture_coordinate_in_unit_square (-60) 60 (by norm_num) (by norm_num)).2.1⟩

/-! ## Lemmas on rounding -/

/-- Rounding to the nearest integer moves a number by at most one half. -/
theorem round_half_even_dist (x : ℝ) : |(round_half_even x : ℝ) - x| ≤ 1 / 2 := by
  have h0 : (Int.floor x : ℝ) ≤ x := Int.floor_le x
  have h1 : x < (Int.floor x : ℝ) + 1 := Int.lt_floor_add_one x
  unfold round_half_even
  split_ifs with ha hb hc
  · rw [abs_le]; constructor <;> linarith
  · rw [abs_le]; push_cast; constructor <;> linarith
  · rw [abs_le]; constructor <;> linarith
  · rw [abs_le]; push_cast; constructor <;> linarith

/-- A number closer than one half to an integer rounds to that integer. -/
theorem round_half_even_eq (x : ℝ) (n : Int) (h : |x - (n : ℝ)| < 1 / 2) :
    round_half_even x = n := by
  rw [abs_lt] at h
  obtain ⟨hlo, hhi⟩ := h
  by_cases hx : (n : ℝ) ≤ x
  · have hfloor : Int.floor x = n := by
      rw [Int.floor_eq_iff]
      constructor <;> linarith
    unfold round_half_even
    rw [hfloor, if_pos (by linarith)]
  · have hfloor : Int.floor x = n - 1 := by
      rw [Int.floor_eq_iff]
      push_cast
      constructor <;> linarith
    unfold round_half_even
    rw [hfloor]
    push_cast
    rw [if_neg (by linarith), if_pos (by linarith)]
    ring

/-- Rounding to the nearest integer does not cross an integer from below. -/
theorem round_half_even_le (x : ℝ) (n : Int) (h : x ≤ (n : ℝ)) : round_half_even x ≤ n := by
  have hfl : Int.floor x ≤ n := by
    have := Int.floor_le x
    exact_mod_cast (Int.floor_le_iff.mpr (by linarith) : Int.floor x ≤ n)
  have h0 : (Int.floor x : ℝ) ≤ x := Int.floor_le x
  by_cases heq : Int.floor x = n
  · have hx : x = (n : ℝ) := by
      have : (Int.floor x : ℝ) = (n : ℝ) := by exact_mod_cast heq
      linarith
    exact le_of_eq (round_half_even_eq x n (by rw [hx]; simp))
  · have hlt : Int.floor x + 1 ≤ n := by omega
    unfold round_half_even
    split_ifs <;> omega

/-- A number more than one half below an integer rounds to a smaller
integer. -/
theorem round_half_even_lt (x : ℝ) (n : Int) (h : x < (n : ℝ) - 1 / 2) :
    round_half_even x ≤ n - 1 := by
  have h0 : (Int.floor x : ℝ) ≤ x := Int.floor_le x
  have hfl : Int.floor x ≤ n - 1 := by
    have hlt : (Int.floor x : ℝ) < (n : ℝ) := by linarith
    have : Int.floor x < n := by exact_mod_cast hlt
    omega
  by_cases heq : Int.floor x = n - 1
  · have hr : (Int.floor x : ℝ) = (n : ℝ) - 1 := by
      rw [heq]; push_cast; ring
    unfold round_half_even
    rw [if_pos (by linarith)]
    exact hfl
  · unfold round_half_even
    split_ifs <;> omega

/-- A number at most one half below an even integer, and not above it, rounds
to that integer. -/
theorem round_half_even_even (x : ℝ) (n : Int) (heven : n % 2 = 0)
    (hlo : (n : ℝ) - 1 / 2 ≤ x) (hhi : x ≤ (n : ℝ)) : round_half_even x = n := by
  by_cases htie : x = (n : ℝ) - 1 / 2
  · have hfloor : Int.floor x = n - 1 := by
      rw [Int.floor_eq_iff]
      push_cast
      constructor <;> linarith
    unfold round_half_even
    rw [hfloor]
    push_cast
    rw [if_neg (by linarith), if_neg (by linarith), if_neg (by omega)]
    ring
  · apply round_half_even_eq
    rw [abs_lt]
    constructor
    · rcases lt_or_eq_of_le hlo with h | h
      · linarith
      · exact absurd h.symm htie
    · linarith

/-- The spacing `2^(e - prec + 1)` written with a natural power. -/
theorem ulp_eq (e : Int) (prec : Nat) :
    (2 : ℝ) ^ (e - (prec : Int) + 1) = (2 : ℝ) ^ e * 2 / (2 : ℝ) ^ prec := by
  rw [zpow_add₀ (two_ne_zero), zpow_sub₀ (two_ne_zero), zpow_natCast, zpow_one]
  ring

/-- The spacing is positive. -/
theorem ulp_pos (e : Int) (prec : Nat) : 0 < (2 : ℝ) ^ (e - (prec : Int) + 1) :=
  zpow_pos (by norm_num) _

/-- The exponent of a nonzero number is the `e` with `2^e <= |x| < 2^(e+1)`. -/
theorem log_abs_eq (x : ℝ) (e : Int) (h1 : (2 : ℝ) ^ e ≤ |x|) (h2 : |x| < (2 : ℝ) ^ (e + 1)) :
    Int.log 2 |x| = e := by
  have hpos : 0 < |x| := lt_of_lt_of_le (zpow_pos (by norm_num) e) h1
  have hle : e ≤ Int.log 2 |x| :=
    (Int.zpow_le_iff_le_log (by norm_num) hpos).mp (by exact_mod_cast h1)
  have hlt : Int.log 2 |x| < e + 1 :=
    (Int.lt_zpow_iff_log_lt (by norm_num) hpos).mp (by exact_mod_cast h2)
  omega

/-- Evaluation of a rounding: with `2^e <= |x| < 2^(e+1)` and `x` closer than
half a spacing to `n` spacings, `x` rounds to `n` spacings. -/
theorem round_nearest_eq (prec : Nat) (x : ℝ) (e n : Int)
    (h1 : (2 : ℝ) ^ e ≤ |x|) (h2 : |x| < (2 : ℝ) ^ (e + 1))
    (hn : |x / (2 : ℝ) ^ (e - (prec : Int) + 1) - (n : ℝ)| < 1 / 2) :
    round_nearest prec x = (n : ℝ) * (2 : ℝ) ^ (e - (prec : Int) + 1) := by
  have hpos : 0 < |x| := lt_of_lt_of_le (zpow_pos (by norm_num) e) h1
  have hx : x ≠ 0 := abs_pos.mp hpos
  unfold round_nearest
  rw [if_neg hx, log_abs_eq x e h1 h2, round_half_even_eq _ n hn]

/-- Rounding moves a number by at most `2^-prec` of its size. -/
theorem round_nearest_err (prec : Nat) (x : ℝ) :
    |round_nearest prec x - x| ≤ |x| / (2 : ℝ) ^ prec := by
  by_cases hx : x = 0
  · unfold round_nearest
    rw [if_pos hx, hx]
    simp
  · have hpos : 0 < |x| := abs_pos.mpr hx
    have hlog : (2 : ℝ) ^ (Int.log 2 |x|) ≤ |x| := by
      have := Int.zpow_log_le_self (b := 2) (by norm_num) hpos
      exact_mod_cast this
    have hu := ulp_pos (Int.log 2 |x|) prec
    have hdist := round_half_even_dist (x / (2 : ℝ) ^ (Int.log 2 |x| - (prec : Int) + 1))
    have hp : (0 : ℝ) < (2 : ℝ) ^ prec := pow_pos (by norm_num) prec
    unfold round_nearest
    rw [if_neg hx]
    have hrew : (round_half_even (x / (2 : ℝ) ^ (Int.log 2 |x| - (prec : Int) + 1)) : ℝ) *
        (2 : ℝ) ^ (Int.log 2 |x| - (prec : Int) + 1) - x =
        ((round_half_even (x / (2 : ℝ) ^ (Int.log 2 |x| - (prec : Int) + 1)) : ℝ) -
          x / (2 : ℝ) ^ (Int.log 2 |x| - (prec : Int) + 1)) *
        (2 : ℝ) ^ (Int.log 2 |x| - (prec : Int) + 1) := by
      field_simp
    rw [hrew, abs_mul, abs_of_pos hu]
    calc |(round_half_even (x / (2 : ℝ) ^ (Int.log 2 |x| - (prec : Int) + 1)) : ℝ) -
          x / (2 : ℝ) ^ (Int.log 2 |x| - (prec : Int) + 1)| *
          (2 : ℝ) ^ (Int.log 2 |x| - (prec : Int) + 1)
        ≤ 1 / 2 * (2 : ℝ) ^ (Int.log 2 |x| - (prec : Int) + 1) :=
          mul_le_mul_of_nonneg_right hdist (le_of_lt hu)
      _ = (2 : ℝ) ^ (Int.log 2 |x|) / (2 : ℝ) ^ prec := by
          rw [ulp_eq]
          ring
      _ ≤ |x| / (2 : ℝ) ^ prec := div_le_div_of_nonneg_right hlog (le_of_lt hp)

/-- A non-negative number rounds to within the relative error `2^-prec`. -/
theorem round_nearest_nonneg_bounds (prec : Nat) (x : ℝ) (hx : 0 ≤ x) :
    x * (1 - 1 / (2 : ℝ) ^ prec) ≤ round_nearest prec x ∧
      round_nearest prec x ≤ x * (1 + 1 / (2 : ℝ) ^ prec) := by
  have herr := round_nearest_err prec x
  rw [abs_of_nonneg hx, abs_le] at herr
  constructor
  · have : x * (1 - 1 / (2 : ℝ) ^ prec) = x - x / (2 : ℝ) ^ prec := by ring
    rw [this]
    linarith [herr.1]
  · have : x * (1 + 1 / (2 : ℝ) ^ prec) = x + x / (2 : ℝ) ^ prec := by ring
    rw [this]
    linarith [herr.2]

/-- A non-positive number rounds to within the relative error `2^-prec`. -/
theorem round_nearest_nonpos_bounds (prec : Nat) (x : ℝ) (hx : x ≤ 0) :
    x * (1 + 1 / (2 : ℝ) ^ prec) ≤ round_nearest prec x ∧
      round_nearest prec x ≤ x * (1 - 1 / (2 : ℝ) ^ prec) := by
  have herr := round_nearest_err prec x
  rw [abs_of_nonpos hx, abs_le] at herr
  constructor
  · have : x * (1 + 1 / (2 : ℝ) ^ prec) = x - (-x) / (2 : ℝ) ^ prec := by ring
    rw [this]
    linarith [herr.1]
  · have : x * (1 - 1 / (2 : ℝ) ^ prec) = x + (-x) / (2 : ℝ) ^ prec := by ring
    rw [this]
    linarith [herr.2]

/-- A positive number rounds to a positive `float`. -/
theorem to_float_pos (x : ℝ) (hx : 0 < x) : 0 < to_float x := by
  have h := (round_nearest_nonneg_bounds 24 x (le_of_lt hx)).1
  have hpos : 0 < x * (1 - 1 / (2 : ℝ) ^ 24) := mul_pos hx (by norm_num)
  exact lt_of_lt_of_le hpos h

/-- A negative number rounds to a negative `float`. -/
theorem to_float_neg (x : ℝ) (hx : x < 0) : to_float x < 0 := by
  have h := (round_nearest_nonpos_bounds 24 x (le_of_lt hx)).2
  have hneg : x * (1 - 1 / (2 : ℝ) ^ 24) < 0 := mul_neg_of_neg_of_pos hx (by norm_num)
  exact lt_of_le_of_lt h hneg

/-- A positive number rounds to a positive `double`. -/
theorem to_double_pos (x : ℝ) (hx : 0 < x) : 0 < to_double x := by
  have h := (round_nearest_nonneg_bounds 53 x (le_of_lt hx)).1
  have hpos : 0 < x * (1 - 1 / (2 : ℝ) ^ 53) := mul_pos hx (by norm_num)
  exact lt_of_lt_of_le hpos h

/-- A positive number below `2^k` rounds to at most `2^k`. -/
theorem round_nearest_le_zpow (prec : Nat) (x : ℝ) (k : Int) (hx : 0 < x)
    (hk : x < (2 : ℝ) ^ k) : round_nearest prec x ≤ (2 : ℝ) ^ k := by
  have hx0 : x ≠ 0 := ne_of_gt hx
  have habs : |x| = x := abs_of_pos hx
  have hlog : Int.log 2 |x| < k := by
    rw [habs]
    exact (Int.lt_zpow_iff_log_lt (by norm_num) hx).mp (by exact_mod_cast hk)
  have hlt : x < (2 : ℝ) ^ (Int.log 2 |x| + 1) := by
    have := Int.lt_zpow_succ_log_self (b := 2) (by norm_num) x
    rw [habs]
    exact_mod_cast this
  have hu := ulp_pos (Int.log 2 |x|) prec
  have hp : (0 : ℝ) < (2 : ℝ) ^ prec := pow_pos (by norm_num) prec
  -- the scaled number is below 2^prec
  have hm : x / (2 : ℝ) ^ (Int.log 2 |x| - (prec : Int) + 1) ≤ (((2 : Int) ^ prec : Int) : ℝ) := by
    rw [div_le_iff₀ hu, ulp_eq]
    push_cast
    have h2 : (2 : ℝ) ^ (Int.log 2 |x| + 1) = (2 : ℝ) ^ (Int.log 2 |x|) * 2 := by
      rw [zpow_add₀ (two_ne_zero), zpow_one]
    rw [h2] at hlt
    have hcancel : (2 : ℝ) ^ prec * ((2 : ℝ) ^ (Int.log 2 |x|) * 2 / (2 : ℝ) ^ prec) =
        (2 : ℝ) ^ (Int.log 2 |x|) * 2 := by
      field_simp
    rw [hcancel]
    exact le_of_lt hlt
  have hr := round_half_even_le _ _ hm
  have hrR : (round_half_even (x / (2 : ℝ) ^ (Int.log 2 |x| - (prec : Int) + 1)) : ℝ) ≤
      (2 : ℝ) ^ prec := by
    have : ((round_half_even (x / (2 : ℝ) ^ (Int.log 2 |x| - (prec : Int) + 1)) : Int) : ℝ) ≤
        (((2 : Int) ^ prec : Int) : ℝ) := by exact_mod_cast hr
    simpa using this
  unfold round_nearest
  rw [if_neg hx0]
  calc (round_half_even (x / (2 : ℝ) ^ (Int.log 2 |x| - (prec : Int) + 1)) : ℝ) *
        (2 : ℝ) ^ (Int.log 2 |x| - (prec : Int) + 1)
      ≤ (2 : ℝ) ^ prec * (2 : ℝ) ^ (Int.log 2 |x| - (prec : Int) + 1) :=
        mul_le_mul_of_nonneg_right hrR (le_of_lt hu)
    _ = (2 : ℝ) ^ (Int.log 2 |x| + 1) := by
        rw [ulp_eq, zpow_add₀ (two_ne_zero), zpow_one]
        field_simp
    _ ≤ (2 : ℝ) ^ k := zpow_le_zpow_right₀ (by norm_num) (by omega)

/-- A number that is at most 1 rounds to a `float` that is at most 1. -/
theorem to_float_le_one (x : ℝ) (hx : x ≤ 1) : to_float x ≤ 1 := by
  rcases lt_trichotomy x 0 with hneg | hzero | hpos
  · exact le_trans (le_of_lt (to_float_neg x hneg)) zero_le_one
  · rw [hzero]
    unfold to_float round_nearest
    rw [if_pos rfl]
    exact zero_le_one
  · rcases lt_or_eq_of_le hx with hlt | heq
    · have h := round_nearest_le_zpow 24 x 0 hpos (by simpa using hlt)
      simpa using h
    · rw [heq]
      have h := round_nearest_eq 24 1 0 8388608 (by norm_num) (by norm_num) (by norm_num)
      unfold to_float
      rw [h]
      norm_num

/-- A number in `[1 - 2^-25, 1]` rounds to the `float` 1. -/
theorem to_float_eq_one (x : ℝ) (hlo : 1 - 1 / (2 : ℝ) ^ 25 ≤ x) (hhi : x ≤ 1) :
    to_float x = 1 := by
  rcases lt_or_eq_of_le hhi with hlt | heq
  · have hxpos : 0 < x := by
      have : (0 : ℝ) < 1 - 1 / (2 : ℝ) ^ 25 := by norm_num
      linarith
    have habs : |x| = x := abs_of_pos hxpos
    have hlog : Int.log 2 |x| = -1 := by
      apply log_abs_eq
      · rw [habs]
        have h2 : (2 : ℝ) ^ (-1 : Int) = 1 / 2 := by norm_num
        rw [h2]
        norm_num at hlo
        linarith
      · rw [habs]
        norm_num
        exact hlt
    have hu : (2 : ℝ) ^ ((-1 : Int) - ((24 : Nat) : Int) + 1) = 1 / (2 : ℝ) ^ 24 := by
      norm_num
    have hrhe : round_half_even (x / (1 / (2 : ℝ) ^ 24)) = 16777216 := by
      apply round_half_even_even _ 16777216 (by decide)
      · rw [le_div_iff₀ (by norm_num)]
        norm_num
        norm_num at hlo
        linarith
      · rw [div_le_iff₀ (by norm_num)]
        norm_num
        exact hhi
    unfold to_float round_nearest
    rw [if_neg (ne_of_gt hxpos), hlog, hu, hrhe]
    norm_num
  · rw [heq]
    have h := round_nearest_eq 24 1 0 8388608 (by norm_num) (by norm_num) (by norm_num)
    unfold to_float
    rw [h]
    norm_num

/-- A number below `1 - 2^-25` rounds to a `float` below 1. -/
theorem to_float_lt_one (x : ℝ) (hx : x < 1 - 1 / (2 : ℝ) ^ 25) : to_float x < 1 := by
  rcases lt_trichotomy x 0 with hneg | hzero | hpos
  · exact lt_trans (to_float_neg x hneg) zero_lt_one
  · rw [hzero]
    unfold to_float round_nearest
    rw [if_pos rfl]
    exact zero_lt_one
  · by_cases hhalf : x < 1 / 2
    · have h := round_nearest_le_zpow 24 x (-1) hpos (by norm_num; linarith)
      have h2 : (2 : ℝ) ^ (-1 : Int) < 1 := by norm_num
      exact lt_of_le_of_lt h h2
    · have habs : |x| = x := abs_of_pos hpos
      have hlog : Int.log 2 |x| = -1 := by
        apply log_abs_eq
        · rw [habs]
          norm_num
          linarith
        · rw [habs]
          norm_num
          have : (1 : ℝ) - 1 / (2 : ℝ) ^ 25 < 1 := by norm_num
          linarith
      have hu : (2 : ℝ) ^ ((-1 : Int) - ((24 : Nat) : Int) + 1) = 1 / (2 : ℝ) ^ 24 := by
        norm_num
      have hrhe : round_half_even (x / (1 / (2 : ℝ) ^ 24)) ≤ 16777216 - 1 := by
        apply round_half_even_lt
        rw [div_lt_iff₀ (by norm_num)]
        norm_num
        norm_num at hx
        linarith
      have hrR : (round_half_even (x / (1 / (2 : ℝ) ^ 24)) : ℝ) ≤ 16777215 := by
        exact_mod_cast hrhe
      unfold to_float round_nearest
      rw [if_neg (ne_of_gt hpos), hlog, hu]
      have : (round_half_even (x / (1 / (2 : ℝ) ^ 24)) : ℝ) * (1 / (2 : ℝ) ^ 24) ≤
          16777215 * (1 / (2 : ℝ) ^ 24) :=
        mul_le_mul_of_nonneg_right hrR (by norm_num)
      have h2 : (16777215 : ℝ) * (1 / (2 : ℝ) ^ 24) < 1 := by norm_num
      linarith

/-- A negative number rounds to a negative `double`. -/
theorem to_double_neg (x : ℝ) (hx : x < 0) : to_double x < 0 := by
  have h := (round_nearest_nonpos_bounds 53 x (le_of_lt hx)).2
  have hneg : x * (1 - 1 / (2 : ℝ) ^ 53) < 0 := mul_neg_of_neg_of_pos hx (by norm_num)
  exact lt_of_le_of_lt h hneg

/-- A number that is at most 1 rounds to a `double` that is at most 1. -/
theorem to_double_le_one (x : ℝ) (hx : x ≤ 1) : to_double x ≤ 1 := by
  rcases lt_trichotomy x 0 with hneg | hzero | hpos
  · exact le_trans (le_of_lt (to_double_neg x hneg)) zero_le_one
  · rw [hzero]
    unfold to_double round_nearest
    rw [if_pos rfl]
    exact zero_le_one
  · rcases lt_or_eq_of_le hx with hlt | heq
    · have h := round_nearest_le_zpow 53 x 0 hpos (by simpa using hlt)
      simpa using h
    · rw [heq]
      have h := round_nearest_eq 53 1 0 4503599627370496 (by norm_num) (by norm_num)
        (by norm_num)
      unfold to_double
      rw [h]
      norm_num

/-- Rounding to `double` and then to `float` moves a number by at most the
fraction `10^-7` of its size. -/
theorem to_float_to_double_err (x : ℝ) : |to_float (to_double x) - x| ≤ |x| / 10 ^ 7 := by
  have h1 : |to_float (to_double x) - to_double x| ≤ |to_double x| / (2 : ℝ) ^ 24 :=
    round_nearest_err 24 (to_double x)
  have h2 : |to_double x - x| ≤ |x| / (2 : ℝ) ^ 53 := round_nearest_err 53 x
  have h3 : |to_double x| ≤ |x| + |x| / (2 : ℝ) ^ 53 := by
    have : |to_double x| = |(to_double x - x) + x| := by ring_nf
    rw [this]
    have h := abs_add (to_double x - x) x
    linarith
  have h4 : |to_float (to_double x) - x| ≤
      |to_float (to_double x) - to_double x| + |to_double x - x| := by
    have : to_float (to_double x) - x =
        (to_float (to_double x) - to_double x) + (to_double x - x) := by ring
    rw [this]
    exact abs_add _ _
  have hx := abs_nonneg x
  have h5 : |to_double x| / (2 : ℝ) ^ 24 ≤ (|x| + |x| / (2 : ℝ) ^ 53) / (2 : ℝ) ^ 24 :=
    div_le_div_of_nonneg_right h3 (by positivity)
  have h6 : (|x| + |x| / (2 : ℝ) ^ 53) / (2 : ℝ) ^ 24 + |x| / (2 : ℝ) ^ 53 ≤ |x| / 10 ^ 7 := by
    have : (|x| + |x| / (2 : ℝ) ^ 53) / (2 : ℝ) ^ 24 + |x| / (2 : ℝ) ^ 53 =
        |x| * ((1 + 1 / (2 : ℝ) ^ 53) / (2 : ℝ) ^ 24 + 1 / (2 : ℝ) ^ 53) := by ring
    rw [this, div_eq_mul_one_div |x| (10 ^ 7)]
    exact mul_le_mul_of_nonneg_left (by norm_num) hx
  linarith

/-- A number in `[1 - 2^-26, 1]` goes through `double` to the `float` 1. -/
theorem to_float_to_double_eq_one (x : ℝ) (hlo : 1 - 1 / (2 : ℝ) ^ 26 ≤ x) (hhi : x ≤ 1) :
    to_float (to_double x) = 1 := by
  have hx0 : 0 ≤ x := by
    have : (0 : ℝ) ≤ 1 - 1 / (2 : ℝ) ^ 26 := by norm_num
    linarith
  have h1 := (round_nearest_nonneg_bounds 53 x hx0).1
  have h1' : x * (1 - 1 / (2 : ℝ) ^ 53) ≤ to_double x := h1
  apply to_float_eq_one _ _ (to_double_le_one x hhi)
  have h2 : (1 - 1 / (2 : ℝ) ^ 26) * (1 - 1 / (2 : ℝ) ^ 53) ≤ x * (1 - 1 / (2 : ℝ) ^ 53) :=
    mul_le_mul_of_nonneg_right hlo (by norm_num)
  have h3 : (1 : ℝ) - 1 / (2 : ℝ) ^ 25 ≤ (1 - 1 / (2 : ℝ) ^ 26) * (1 - 1 / (2 : ℝ) ^ 53) := by
    norm_num
  linarith

/-! ## The angle of `color_fader_float` -/

/-- Evaluation of a rounding to `float` of a positive number. -/
theorem to_float_eval (x y : ℝ) (e n : Int) (h1 : (2 : ℝ) ^ e ≤ x)
    (h2 : x < (2 : ℝ) ^ (e + 1))
    (hn : |x / (2 : ℝ) ^ (e - ((24 : Nat) : Int) + 1) - (n : ℝ)| < 1 / 2)
    (hy : (n : ℝ) * (2 : ℝ) ^ (e - ((24 : Nat) : Int) + 1) = y) : to_float x = y := by
  have hpos : 0 < x := lt_of_lt_of_le (zpow_pos (by norm_num) e) h1
  have habs : |x| = x := abs_of_pos hpos
  unfold to_float
  rw [round_nearest_eq 24 x e n (by rw [habs]; exact h1) (by rw [habs]; exact h2) hn, hy]

/-- Evaluation of a rounding to `double` of a positive number. -/
theorem to_double_eval (x y : ℝ) (e n : Int) (h1 : (2 : ℝ) ^ e ≤ x)
    (h2 : x < (2 : ℝ) ^ (e + 1))
    (hn : |x / (2 : ℝ) ^ (e - ((53 : Nat) : Int) + 1) - (n : ℝ)| < 1 / 2)
    (hy : (n : ℝ) * (2 : ℝ) ^ (e - ((53 : Nat) : Int) + 1) = y) : to_double x = y := by
  have hpos : 0 < x := lt_of_lt_of_le (zpow_pos (by norm_num) e) h1
  have habs : |x| = x := abs_of_pos hpos
  unfold to_double
  rw [round_nearest_eq 53 x e n (by rw [habs]; exact h1) (by rw [habs]; exact h2) hn, hy]

/-- The constant `M_PI` is pi rounded to `double`. -/
theorem M_PI_nearest_pi : to_double Real.pi = M_PI := by
  have hlo := Real.pi_gt_d20
  have hhi := Real.pi_lt_d20
  unfold M_PI
  apply to_double_eval _ _ 1 7074237752028440
  · norm_num
    linarith
  · norm_num
    linarith
  · rw [abs_lt]
    norm_num
    constructor <;> linarith
  · norm_num

/-- The constant `3 * M_PI / 2` of the source, computed in `double`, is
`2652839157010665 / 2^49`; both operations are exact. -/
theorem three_half_pi_double :
    to_double (to_double (3 * M_PI) / 2) = 2652839157010665 / 2 ^ 49 := by
  have h1 : to_double (3 * M_PI) = 2652839157010665 / 2 ^ 48 := by
    unfold M_PI
    apply to_double_eval _ _ 3 5305678314021330 <;> norm_num
  rw [h1]
  apply to_double_eval _ _ 2 5305678314021330 <;> norm_num

/-- The angle that the source computes at periodic time 3000 of period 4500 is
the `float` `13176795 / 2^22`, the `float` nearest to pi. -/
theorem radians_at_phase_end :
    to_float (to_double ((2652839157010665 / 2 ^ 49 : ℝ) *
      to_float (to_float (3000 : ℝ) / to_float (4500 : ℝ)))) = 13176795 / 2 ^ 22 := by
  have hA : to_float (3000 : ℝ) = 3000 := by
    apply to_float_eval _ _ 11 12288000 <;> norm_num
  have hB : to_float (4500 : ℝ) = 4500 := by
    apply to_float_eval _ _ 12 9216000 <;> norm_num
  have hpc : to_float ((3000 : ℝ) / 4500) = 11184811 / 2 ^ 24 := by
    apply to_float_eval _ _ (-1) 11184811 <;> norm_num
    rw [abs_lt]
    constructor <;> norm_num
  have hrd : to_double ((2652839157010665 / 2 ^ 49 : ℝ) * (11184811 / 2 ^ 24)) =
      7074237962857154 / 2 ^ 51 := by
    apply to_double_eval _ _ 1 7074237962857154 <;> norm_num
    rw [abs_lt]
    constructor <;> norm_num
  have hr : to_float (7074237962857154 / 2 ^ 51 : ℝ) = 13176795 / 2 ^ 22 := by
    apply to_float_eval _ _ 1 13176795 <;> norm_num
    rw [abs_lt]
    constructor <;> norm_num
  rw [hA, hB, hpc, hrd, hr]

/-- Rounding keeps an upper bound of the form `y * k`, at the price of the
factor `1 + 2^-prec`. -/
theorem round_nearest_le_mul (prec : Nat) (x y k : ℝ) (hx : 0 ≤ x) (hxy : x ≤ y * k) :
    round_nearest prec x ≤ y * (k * (1 + 1 / (2 : ℝ) ^ prec)) := by
  have h := (round_nearest_nonneg_bounds prec x hx).2
  have hfac : (0 : ℝ) ≤ 1 + 1 / (2 : ℝ) ^ prec := by positivity
  calc round_nearest prec x ≤ x * (1 + 1 / (2 : ℝ) ^ prec) := h
    _ ≤ (y * k) * (1 + 1 / (2 : ℝ) ^ prec) := mul_le_mul_of_nonneg_right hxy hfac
    _ = y * (k * (1 + 1 / (2 : ℝ) ^ prec)) := by ring

/-- Rounding keeps a lower bound of the form `y * k`, at the price of the
factor `1 - 2^-prec`. -/
theorem mul_le_round_nearest (prec : Nat) (x y k : ℝ) (hx : 0 ≤ x) (hxy : y * k ≤ x) :
    y * (k * (1 - 1 / (2 : ℝ) ^ prec)) ≤ round_nearest prec x := by
  have h := (round_nearest_nonneg_bounds prec x hx).1
  have hp : (1 : ℝ) ≤ (2 : ℝ) ^ prec := one_le_pow₀ (by norm_num)
  have hfac : (0 : ℝ) ≤ 1 - 1 / (2 : ℝ) ^ prec := by
    have : 1 / (2 : ℝ) ^ prec ≤ 1 := by
      rw [div_le_one (by positivity)]
      exact hp
    linarith
  calc y * (k * (1 - 1 / (2 : ℝ) ^ prec)) = (y * k) * (1 - 1 / (2 : ℝ) ^ prec) := by ring
    _ ≤ x * (1 - 1 / (2 : ℝ) ^ prec) := mul_le_mul_of_nonneg_right hxy hfac
    _ ≤ round_nearest prec x := h

/-- The rounded angle is within the relative error `1 / 4000000` of the exact
angle `(3 pi / 2) * (pt / period)`. -/
theorem float_radians_bounds (pt period : Int) (hpt : 0 < pt) (hp : 0 < period) :
    (3 * Real.pi / 2) * ((pt : ℝ) / (period : ℝ)) * (1 - 1 / 4000000) ≤
        float_radians pt period ∧
      float_radians pt period ≤
        (3 * Real.pi / 2) * ((pt : ℝ) / (period : ℝ)) * (1 + 1 / 4000000) := by
  have hptR : (0 : ℝ) < (pt : ℝ) := by exact_mod_cast hpt
  have hpR : (0 : ℝ) < (period : ℝ) := by exact_mod_cast hp
  have ht : 0 < (pt : ℝ) / (period : ℝ) := div_pos hptR hpR
  have hpilo := Real.pi_gt_d20
  have hpihi := Real.pi_lt_d20
  -- the two casts
  obtain ⟨hAlo, hAhi⟩ := round_nearest_nonneg_bounds 24 (pt : ℝ) (le_of_lt hptR)
  obtain ⟨hBlo, hBhi⟩ := round_nearest_nonneg_bounds 24 (period : ℝ) (le_of_lt hpR)
  have hA0 : 0 < to_float (pt : ℝ) := to_float_pos _ hptR
  have hB0 : 0 < to_float (period : ℝ) := to_float_pos _ hpR
  have hBlo0 : 0 < (period : ℝ) * (1 - 1 / (2 : ℝ) ^ 24) := mul_pos hpR (by norm_num)
  have hBhi0 : 0 < (period : ℝ) * (1 + 1 / (2 : ℝ) ^ 24) := mul_pos hpR (by norm_num)
  -- the quotient
  have hq0 : 0 < to_float (pt : ℝ) / to_float (period : ℝ) := div_pos hA0 hB0
  have hqhi : to_float (pt : ℝ) / to_float (period : ℝ) ≤
      (pt : ℝ) / (period : ℝ) * ((1 + 1 / (2 : ℝ) ^ 24) / (1 - 1 / (2 : ℝ) ^ 24)) := by
    have h1 : to_float (pt : ℝ) / to_float (period : ℝ) ≤
        ((pt : ℝ) * (1 + 1 / (2 : ℝ) ^ 24)) / ((period : ℝ) * (1 - 1 / (2 : ℝ) ^ 24)) :=
      div_le_div₀ (le_of_lt (mul_pos hptR (by norm_num))) hAhi hBlo0 hBlo
    have h2 : ((pt : ℝ) * (1 + 1 / (2 : ℝ) ^ 24)) / ((period : ℝ) * (1 - 1 / (2 : ℝ) ^ 24)) =
        (pt : ℝ) / (period : ℝ) * ((1 + 1 / (2 : ℝ) ^ 24) / (1 - 1 / (2 : ℝ) ^ 24)) := by
      field_simp
    rw [h2] at h1
    exact h1
  have hqlo : (pt : ℝ) / (period : ℝ) * ((1 - 1 / (2 : ℝ) ^ 24) / (1 + 1 / (2 : ℝ) ^ 24)) ≤
      to_float (pt : ℝ) / to_float (period : ℝ) := by
    have h1 : ((pt : ℝ) * (1 - 1 / (2 : ℝ) ^ 24)) / ((period : ℝ) * (1 + 1 / (2 : ℝ) ^ 24)) ≤
        to_float (pt : ℝ) / to_float (period : ℝ) :=
      div_le_div₀ (le_of_lt hA0) hAlo hB0 hBhi
    have h2 : ((pt : ℝ) * (1 - 1 / (2 : ℝ) ^ 24)) / ((period : ℝ) * (1 + 1 / (2 : ℝ) ^ 24)) =
        (pt : ℝ) / (period : ℝ) * ((1 - 1 / (2 : ℝ) ^ 24) / (1 + 1 / (2 : ℝ) ^ 24)) := by
      field_simp
    rw [h2] at h1
    exact h1
  -- period_completion
  have hpc0 : 0 < to_float (to_float (pt : ℝ) / to_float (period : ℝ)) := to_float_pos _ hq0
  have hpchi := round_nearest_le_mul 24 _ _ _ (le_of_lt hq0) hqhi
  have hpclo := mul_le_round_nearest 24 _ _ _ (le_of_lt hq0) hqlo
  -- the product with the constant
  have hc0 : (0 : ℝ) < 2652839157010665 / 2 ^ 49 := by norm_num
  have hprod0 : 0 < (2652839157010665 / 2 ^ 49 : ℝ) *
      to_float (to_float (pt : ℝ) / to_float (period : ℝ)) := mul_pos hc0 hpc0
  have hprodhi : (2652839157010665 / 2 ^ 49 : ℝ) *
      to_float (to_float (pt : ℝ) / to_float (period : ℝ)) ≤
      (pt : ℝ) / (period : ℝ) * ((2652839157010665 / 2 ^ 49) *
        ((1 + 1 / (2 : ℝ) ^ 24) / (1 - 1 / (2 : ℝ) ^ 24) * (1 + 1 / (2 : ℝ) ^ 24))) := by
    have := mul_le_mul_of_nonneg_left hpchi (le_of_lt hc0)
    calc (2652839157010665 / 2 ^ 49 : ℝ) *
          to_float (to_float (pt : ℝ) / to_float (period : ℝ))
        ≤ (2652839157010665 / 2 ^ 49 : ℝ) * ((pt : ℝ) / (period : ℝ) *
            ((1 + 1 / (2 : ℝ) ^ 24) / (1 - 1 / (2 : ℝ) ^ 24) * (1 + 1 / (2 : ℝ) ^ 24))) := this
      _ = _ := by ring
  have hprodlo : (pt : ℝ) / (period : ℝ) * ((2652839157010665 / 2 ^ 49) *
        ((1 - 1 / (2 : ℝ) ^ 24) / (1 + 1 / (2 : ℝ) ^ 24) * (1 - 1 / (2 : ℝ) ^ 24))) ≤
      (2652839157010665 / 2 ^ 49 : ℝ) *
        to_float (to_float (pt : ℝ) / to_float (period : ℝ)) := by
    have := mul_le_mul_of_nonneg_left hpclo (le_of_lt hc0)
    calc (pt : ℝ) / (period : ℝ) * ((2652839157010665 / 2 ^ 49) *
          ((1 - 1 / (2 : ℝ) ^ 24) / (1 + 1 / (2 : ℝ) ^ 24) * (1 - 1 / (2 : ℝ) ^ 24)))
        = (2652839157010665 / 2 ^ 49 : ℝ) * ((pt : ℝ) / (period : ℝ) *
            ((1 - 1 / (2 : ℝ) ^ 24) / (1 + 1 / (2 : ℝ) ^ 24) * (1 - 1 / (2 : ℝ) ^ 24))) := by
          ring
      _ ≤ _ := this
  -- rounding to double, then to float
  have hrd0 : 0 < to_double ((2652839157010665 / 2 ^ 49 : ℝ) *
      to_float (to_float (pt : ℝ) / to_float (period : ℝ))) := to_double_pos _ hprod0
  have hrdhi := round_nearest_le_mul 53 _ _ _ (le_of_lt hprod0) hprodhi
  have hrdlo := mul_le_round_nearest 53 _ _ _ (le_of_lt hprod0) hprodlo
  have hrhi := round_nearest_le_mul 24 _ _ _ (le_of_lt hrd0) hrdhi
  have hrlo := mul_le_round_nearest 24 _ _ _ (le_of_lt hrd0) hrdlo
  -- the constants
  have hKhi : (2652839157010665 / 2 ^ 49 : ℝ) *
      ((1 + 1 / (2 : ℝ) ^ 24) / (1 - 1 / (2 : ℝ) ^ 24) * (1 + 1 / (2 : ℝ) ^ 24)) *
      (1 + 1 / (2 : ℝ) ^ 53) * (1 + 1 / (2 : ℝ) ^ 24) ≤
      (3 * Real.pi / 2) * (1 + 1 / 4000000) := by
    have hnum : (2652839157010665 / 2 ^ 49 : ℝ) *
        ((1 + 1 / (2 : ℝ) ^ 24) / (1 - 1 / (2 : ℝ) ^ 24) * (1 + 1 / (2 : ℝ) ^ 24)) *
        (1 + 1 / (2 : ℝ) ^ 53) * (1 + 1 / (2 : ℝ) ^ 24) ≤
        (3 * 3.14159265358979323846 / 2) * (1 + 1 / 4000000) := by norm_num
    nlinarith
  have hKlo : (3 * Real.pi / 2) * (1 - 1 / 4000000) ≤
      (2652839157010665 / 2 ^ 49 : ℝ) *
      ((1 - 1 / (2 : ℝ) ^ 24) / (1 + 1 / (2 : ℝ) ^ 24) * (1 - 1 / (2 : ℝ) ^ 24)) *
      (1 - 1 / (2 : ℝ) ^ 53) * (1 - 1 / (2 : ℝ) ^ 24) := by
    have hnum : (3 * 3.14159265358979323847 / 2) * (1 - 1 / 4000000) ≤
        (2652839157010665 / 2 ^ 49 : ℝ) *
        ((1 - 1 / (2 : ℝ) ^ 24) / (1 + 1 / (2 : ℝ) ^ 24) * (1 - 1 / (2 : ℝ) ^ 24)) *
        (1 - 1 / (2 : ℝ) ^ 53) * (1 - 1 / (2 : ℝ) ^ 24) := by norm_num
    nlinarith
  unfold float_radians
  rw [three_half_pi_double]
  constructor
  · have hrlo' : (pt : ℝ) / (period : ℝ) * ((2652839157010665 / 2 ^ 49) *
        ((1 - 1 / (2 : ℝ) ^ 24) / (1 + 1 / (2 : ℝ) ^ 24) * (1 - 1 / (2 : ℝ) ^ 24)) *
        (1 - 1 / (2 : ℝ) ^ 53) * (1 - 1 / (2 : ℝ) ^ 24)) ≤
        to_float (to_double ((2652839157010665 / 2 ^ 49 : ℝ) *
          to_float (to_float (pt : ℝ) / to_float (period : ℝ)))) := by
      have := hrlo
      simp only [Nat.cast_ofNat] at this
      calc _ = (pt : ℝ) / (period : ℝ) * ((2652839157010665 / 2 ^ 49) *
            ((1 - 1 / (2 : ℝ) ^ 24) / (1 + 1 / (2 : ℝ) ^ 24) * (1 - 1 / (2 : ℝ) ^ 24)) *
            (1 - 1 / (2 : ℝ) ^ 53) * (1 - 1 / (2 : ℝ) ^ 24)) := rfl
        _ ≤ _ := this
    calc (3 * Real.pi / 2) * ((pt : ℝ) / (period : ℝ)) * (1 - 1 / 4000000)
        = (pt : ℝ) / (period : ℝ) * ((3 * Real.pi / 2) * (1 - 1 / 4000000)) := by ring
      _ ≤ (pt : ℝ) / (period : ℝ) * ((2652839157010665 / 2 ^ 49) *
            ((1 - 1 / (2 : ℝ) ^ 24) / (1 + 1 / (2 : ℝ) ^ 24) * (1 - 1 / (2 : ℝ) ^ 24)) *
            (1 - 1 / (2 : ℝ) ^ 53) * (1 - 1 / (2 : ℝ) ^ 24)) :=
          mul_le_mul_of_nonneg_left hKlo (le_of_lt ht)
      _ ≤ _ := hrlo'
  · have hrhi' : to_float (to_double ((2652839157010665 / 2 ^ 49 : ℝ) *
          to_float (to_float (pt : ℝ) / to_float (period : ℝ)))) ≤
        (pt : ℝ) / (period : ℝ) * ((2652839157010665 / 2 ^ 49) *
        ((1 + 1 / (2 : ℝ) ^ 24) / (1 - 1 / (2 : ℝ) ^ 24) * (1 + 1 / (2 : ℝ) ^ 24)) *
        (1 + 1 / (2 : ℝ) ^ 53) * (1 + 1 / (2 : ℝ) ^ 24)) := hrhi
    calc _ ≤ (pt : ℝ) / (period : ℝ) * ((2652839157010665 / 2 ^ 49) *
            ((1 + 1 / (2 : ℝ) ^ 24) / (1 - 1 / (2 : ℝ) ^ 24) * (1 + 1 / (2 : ℝ) ^ 24)) *
            (1 + 1 / (2 : ℝ) ^ 53) * (1 + 1 / (2 : ℝ) ^ 24)) := hrhi'
      _ ≤ (pt : ℝ) / (period : ℝ) * ((3 * Real.pi / 2) * (1 + 1 / 4000000)) :=
          mul_le_mul_of_nonneg_left hKhi (le_of_lt ht)
      _ = (3 * Real.pi / 2) * ((pt : ℝ) / (period : ℝ)) * (1 + 1 / 4000000) := by ring

/-! ## `color_fader_float` against `color_fader` -/

/-- Without overflow and with a nonzero period `color_fader_float` is the plain
case split on the truncated remainder and quotient. -/
theorem color_fader_float_eq (time offset period : Int) (hp : period ≠ 0)
    (h : no_int_overflow time offset period) :
    color_fader_float time offset period =
      some (if 0 < Int.tmod (time + offset) period ∧
              Int.tmod (time + offset) period ≤ Int.tdiv (2 * period) 3 then
            to_float (to_double
              (Real.sin (float_radians (Int.tmod (time + offset) period) period)))
          else 0) := by
  obtain ⟨h1, h2, h3⟩ := h
  have h3' : ¬ (period = 0 ∨ (time + offset = INT_MIN ∧ period = -1)) := by
    rintro (h0 | h0)
    · exact hp h0
    · exact h3 h0
  have h4 : ¬ ((3 : Int) = 0 ∨ (2 * period = INT_MIN ∧ (3 : Int) = -1)) := by
    rintro (h0 | ⟨_, h0⟩) <;> omega
  simp only [color_fader_float, float_radians, int_add, int_rem, int_mul, int_div, h1, h2,
    h3', h4, and_self, if_true, if_false, Option.bind_eq_bind, Option.some_bind,
    Option.bind_some]
  split <;> rfl

/-- In the active phase, stated with `3 * pt <= 2 * period`, `color_fader_float`
returns the rounded sine of the rounded angle. -/
theorem color_fader_float_active (time offset period : Int) (hp : 0 < period)
    (h : no_int_overflow time offset period)
    (hpos : 0 < Int.tmod (time + offset) period)
    (hle : 3 * Int.tmod (time + offset) period ≤ 2 * period) :
    color_fader_float time offset period =
      some (to_float (to_double
        (Real.sin (float_radians (Int.tmod (time + offset) period) period)))) := by
  rw [color_fader_float_eq time offset period (by omega) h]
  have hq : Int.tmod (time + offset) period ≤ Int.tdiv (2 * period) 3 := by
    rw [Int.tdiv_eq_ediv (by omega) (by omega)]
    omega
  rw [if_pos ⟨hpos, hq⟩]

/-- In the active phase the rounded angle is within `8 * 10^-7` of the exact
angle `(3 pi / 2) * (pt / period)`. -/
theorem float_radians_near (pt period : Int) (hpt : 0 < pt) (hp : 0 < period)
    (hle : 3 * pt ≤ 2 * period) :
    |float_radians pt period - (3 * Real.pi / 2) * ((pt : ℝ) / (period : ℝ))| ≤ 8 / 10 ^ 7 := by
  obtain ⟨hlo, hhi⟩ := float_radians_bounds pt period hpt hp
  obtain ⟨h0, hpi⟩ := active_radians_bounds pt period hpt hp hle
  have hpihi := Real.pi_lt_d20
  rw [abs_le]
  constructor <;> nlinarith

/-- The sine moves by no more than its argument does. -/
theorem sin_sub_sin_le (a b : ℝ) : |Real.sin a - Real.sin b| ≤ |a - b| := by
  rw [Real.sin_sub_sin, abs_mul, abs_mul]
  have h1 : |Real.sin ((a - b) / 2)| ≤ |(a - b) / 2| := Real.abs_sin_le_abs
  have h2 : |Real.cos ((a + b) / 2)| ≤ 1 := Real.abs_cos_le_one _
  have h3 : |(a - b) / 2| = |a - b| / 2 := by
    rw [abs_div]
    norm_num
  have h4 : (0 : ℝ) ≤ |Real.sin ((a - b) / 2)| := abs_nonneg _
  have h5 : (0 : ℝ) ≤ |Real.cos ((a + b) / 2)| := abs_nonneg _
  have h6 : |(2 : ℝ)| = 2 := abs_of_pos (by norm_num)
  rw [h6]
  rw [h3] at h1
  nlinarith

/-- In the active phase the value `color_fader_float` returns is within `10^-6`
of the sine of the exact angle, and at most 1. -/
theorem float_sine_near (pt period : Int) (hpt : 0 < pt) (hp : 0 < period)
    (hle : 3 * pt ≤ 2 * period) :
    |to_float (to_double (Real.sin (float_radians pt period))) -
        Real.sin ((3 * Real.pi / 2) * ((pt : ℝ) / (period : ℝ)))| ≤ 1 / 10 ^ 6 ∧
      to_float (to_double (Real.sin (float_radians pt period))) ≤ 1 := by
  have h1 := float_radians_near pt period hpt hp hle
  have h2 := sin_sub_sin_le (float_radians pt period)
    ((3 * Real.pi / 2) * ((pt : ℝ) / (period : ℝ)))
  have h3 := to_float_to_double_err (Real.sin (float_radians pt period))
  have h4 : |Real.sin (float_radians pt period)| ≤ 1 := Real.abs_sin_le_one _
  have h5 : |Real.sin (float_radians pt period)| / 10 ^ 7 ≤ 1 / 10 ^ 7 :=
    div_le_div_of_nonneg_right h4 (by positivity)
  refine ⟨?_, to_float_le_one _ (to_double_le_one _ (Real.sin_le_one _))⟩
  have h6 : to_float (to_double (Real.sin (float_radians pt period))) -
      Real.sin ((3 * Real.pi / 2) * ((pt : ℝ) / (period : ℝ))) =
      (to_float (to_double (Real.sin (float_radians pt period))) -
        Real.sin (float_radians pt period)) +
      (Real.sin (float_radians pt period) -
        Real.sin ((3 * Real.pi / 2) * ((pt : ℝ) / (period : ℝ)))) := by ring
  rw [h6]
  have h7 := abs_add
    (to_float (to_double (Real.sin (float_radians pt period))) -
        Real.sin (float_radians pt period))
    (Real.sin (float_radians pt period) -
        Real.sin ((3 * Real.pi / 2) * ((pt : ℝ) / (period : ℝ))))
  have h8 : (1 : ℝ) / 10 ^ 7 + 8 / 10 ^ 7 ≤ 1 / 10 ^ 6 := by norm_num
  linarith

/-- The rounded and the exact `color_fader` are defined on the same inputs and
their values differ by at most `10^-6`; the rounded value is at most 1. -/
theorem color_fader_float_near (time offset period : Int) (hp : period ≠ 0)
    (h : no_int_overflow time offset period) :
    ∃ v w : ℝ, color_fader_float time offset period = some v ∧
      color_fader time offset period = some w ∧ |v - w| ≤ 1 / 10 ^ 6 ∧ v ≤ 1 := by
  rw [color_fader_float_eq time offset period hp h, color_fader_eq time offset period hp h]
  by_cases hact : 0 < Int.tmod (time + offset) period ∧
      Int.tmod (time + offset) period ≤ Int.tdiv (2 * period) 3
  · rw [if_pos hact, if_pos hact]
    obtain ⟨hppos, hle⟩ := active_phase_bounds (time + offset) period hact
    obtain ⟨hnear, hone⟩ :=
      float_sine_near (Int.tmod (time + offset) period) period hact.1 hppos hle
    exact ⟨_, _, rfl, rfl, hnear, hone⟩
  · rw [if_neg hact, if_neg hact]
    exact ⟨0, 0, rfl, rfl, by norm_num, by norm_num⟩

/-- The rounded and the exact `color_fader` are undefined on the same inputs. -/
theorem color_fader_float_none_iff (time offset period : Int) :
    color_fader_float time offset period = none ↔ color_fader time offset period = none := by
  unfold color_fader_float color_fader
  cases hs : int_add time offset with
  | none => simp
  | some s =>
    cases hr : int_rem s period with
    | none => simp [hr]
    | some r =>
      cases hm : int_mul 2 period with
      | none => simp [hr, hm]
      | some m =>
        cases hd : int_div m 3 with
        | none => simp [hr, hm, hd]
        | some d =>
          simp only [Option.bind_eq_bind, Option.some_bind, hr, hm, hd]
          split <;> simp

/-- Outside the active phase the rounded and the exact `color_fader` return the
same value, 0. -/
theorem color_fader_float_eq_outside (time offset period : Int) (hp : period ≠ 0)
    (h : no_int_overflow time offset period)
    (hdead : ¬ (0 < Int.tmod (time + offset) period ∧
      Int.tmod (time + offset) period ≤ Int.tdiv (2 * period) 3)) :
    color_fader_float time offset period = some 0 ∧
      color_fader time offset period = some 0 := by
  rw [color_fader_float_eq time offset period hp h, color_fader_eq time offset period hp h,
    if_neg hdead, if_neg hdead]
  exact ⟨rfl, rfl⟩

/-! ## The top and the zero of the rounded sine -/

/-- A number below `1 - 2^-25 - 2^-50` goes through `double` to a `float`
below 1. -/
theorem to_float_to_double_lt_one_sharp (x : ℝ)
    (hx : x < 1 - 1 / (2 : ℝ) ^ 25 - 1 / (2 : ℝ) ^ 50) : to_float (to_double x) < 1 := by
  apply to_float_lt_one
  rcases le_or_lt x 0 with hneg | hpos
  · rcases lt_or_eq_of_le hneg with hlt | heq
    · have := to_double_neg x hlt
      have h0 : (0 : ℝ) < 1 - 1 / (2 : ℝ) ^ 25 := by norm_num
      linarith
    · rw [heq]
      unfold to_double round_nearest
      rw [if_pos rfl]
      norm_num
  · have h1 := (round_nearest_nonneg_bounds 53 x (le_of_lt hpos)).2
    have h1' : to_double x ≤ x * (1 + 1 / (2 : ℝ) ^ 53) := h1
    have h2 : x * (1 + 1 / (2 : ℝ) ^ 53) ≤
        (1 - 1 / (2 : ℝ) ^ 25 - 1 / (2 : ℝ) ^ 50) * (1 + 1 / (2 : ℝ) ^ 53) :=
      mul_le_mul_of_nonneg_right (le_of_lt hx) (by norm_num)
    have h3 : (1 - 1 / (2 : ℝ) ^ 25 - 1 / (2 : ℝ) ^ 50) * (1 + 1 / (2 : ℝ) ^ 53) <
        (1 : ℝ) - 1 / (2 : ℝ) ^ 25 := by
      norm_num
    linarith

/-- The exact angle, measured from `pi / 2`, in terms of the integers. -/
theorem exact_radians_sub_half_pi (pt period : Int) (hp : 0 < period) :
    (3 * Real.pi / 2) * ((pt : ℝ) / (period : ℝ)) - Real.pi / 2 =
      (Real.pi / 2) * (((3 * pt - period : Int) : ℝ) / (period : ℝ)) := by
  have hpR : (period : ℝ) ≠ 0 := by
    have : (0 : ℝ) < (period : ℝ) := by exact_mod_cast hp
    exact ne_of_gt this
  push_cast
  field_simp
  ring

/-- When the periodic time is within one part in 10000 of a third of the
period, the rounded sine of the rounded angle is exactly 1. -/
theorem float_sine_eq_one (pt period : Int) (hp : 0 < period)
    (hnear : 10000 * |3 * pt - period| ≤ period) :
    to_float (to_double (Real.sin (float_radians pt period))) = 1 := by
  have habs := abs_le.mp (show |3 * pt - period| ≤ |3 * pt - period| from le_refl _)
  have hpt : 0 < pt := by
    rcases abs_cases (3 * pt - period) with ⟨h1, _⟩ | ⟨h1, _⟩ <;> omega
  have hle : 3 * pt ≤ 2 * period := by
    rcases abs_cases (3 * pt - period) with ⟨h1, _⟩ | ⟨h1, _⟩ <;> omega
  have hpR : (0 : ℝ) < (period : ℝ) := by exact_mod_cast hp
  have hr := float_radians_near pt period hpt hp hle
  have hex := exact_radians_sub_half_pi pt period hp
  have hpilo := Real.pi_gt_d20
  have hpihi := Real.pi_lt_d20
  -- the exact angle is within 1.5708e-4 of pi / 2
  have hfrac : |((3 * pt - period : Int) : ℝ) / (period : ℝ)| ≤ 1 / 10000 := by
    rw [abs_div, abs_of_pos hpR, div_le_iff₀ hpR]
    have hcast : ((10000 * |3 * pt - period| : Int) : ℝ) ≤ ((period : Int) : ℝ) := by
      exact_mod_cast hnear
    push_cast at hcast
    push_cast
    linarith
  have hex' : |(3 * Real.pi / 2) * ((pt : ℝ) / (period : ℝ)) - Real.pi / 2| ≤
      (Real.pi / 2) * (1 / 10000) := by
    rw [hex, abs_mul, abs_of_pos (by positivity : (0 : ℝ) < Real.pi / 2)]
    exact mul_le_mul_of_nonneg_left hfrac (by positivity)
  -- so is the rounded angle, up to 8e-7
  have hx : |float_radians pt period - Real.pi / 2| ≤ 158 / 10 ^ 6 := by
    have hsplit : float_radians pt period - Real.pi / 2 =
        (float_radians pt period - (3 * Real.pi / 2) * ((pt : ℝ) / (period : ℝ))) +
        ((3 * Real.pi / 2) * ((pt : ℝ) / (period : ℝ)) - Real.pi / 2) := by ring
    rw [hsplit]
    have := abs_add
      (float_radians pt period - (3 * Real.pi / 2) * ((pt : ℝ) / (period : ℝ)))
      ((3 * Real.pi / 2) * ((pt : ℝ) / (period : ℝ)) - Real.pi / 2)
    have hnum : (8 : ℝ) / 10 ^ 7 + (3.14159265358979323847 / 2) * (1 / 10000) ≤
        158 / 10 ^ 6 := by norm_num
    linarith
  have hcos : Real.sin (float_radians pt period) =
      Real.cos (float_radians pt period - Real.pi / 2) := (Real.cos_sub_pi_div_two _).symm
  have hlow := Real.one_sub_sq_div_two_le_cos (x := float_radians pt period - Real.pi / 2)
  have hsq : (float_radians pt period - Real.pi / 2) ^ 2 ≤ (158 / 10 ^ 6) ^ 2 := by
    rw [← sq_abs]
    exact pow_le_pow_left₀ (abs_nonneg _) hx 2
  apply to_float_to_double_eq_one _ _ (Real.sin_le_one _)
  rw [hcos]
  have hnum : (1 : ℝ) - 1 / (2 : ℝ) ^ 26 ≤ 1 - (158 / 10 ^ 6) ^ 2 / 2 := by norm_num
  linarith

/-- In the active phase, when the periodic time is further than one part in
4000 from a third of the period, the rounded sine of the rounded angle is
below 1. -/
theorem float_sine_lt_one (pt period : Int) (hpt : 0 < pt) (hp : 0 < period)
    (hle : 3 * pt ≤ 2 * period) (hfar : period < 4000 * |3 * pt - period|) :
    to_float (to_double (Real.sin (float_radians pt period))) < 1 := by
  have hpR : (0 : ℝ) < (period : ℝ) := by exact_mod_cast hp
  have hr := float_radians_near pt period hpt hp hle
  obtain ⟨h0, hpi⟩ := active_radians_bounds pt period hpt hp hle
  have hex := exact_radians_sub_half_pi pt period hp
  have hpilo := Real.pi_gt_d20
  have hpihi := Real.pi_lt_d20
  have hfrac : 1 / 4000 < |((3 * pt - period : Int) : ℝ) / (period : ℝ)| := by
    rw [abs_div, abs_of_pos hpR, lt_div_iff₀ hpR]
    have hcast : ((period : Int) : ℝ) < ((4000 * |3 * pt - period| : Int) : ℝ) := by
      exact_mod_cast hfar
    push_cast at hcast
    push_cast
    linarith
  have hex' : (Real.pi / 2) * (1 / 4000) <
      |(3 * Real.pi / 2) * ((pt : ℝ) / (period : ℝ)) - Real.pi / 2| := by
    rw [hex, abs_mul, abs_of_pos (by positivity : (0 : ℝ) < Real.pi / 2)]
    exact mul_lt_mul_of_pos_left hfrac (by positivity)
  -- the rounded angle stays away from pi / 2
  have hx : 3918 / 10 ^ 7 ≤ |float_radians pt period - Real.pi / 2| := by
    have hsplit : (3 * Real.pi / 2) * ((pt : ℝ) / (period : ℝ)) - Real.pi / 2 =
        (float_radians pt period - Real.pi / 2) -
        (float_radians pt period - (3 * Real.pi / 2) * ((pt : ℝ) / (period : ℝ))) := by ring
    have := abs_sub (float_radians pt period - Real.pi / 2)
      (float_radians pt period - (3 * Real.pi / 2) * ((pt : ℝ) / (period : ℝ)))
    rw [← hsplit] at this
    have hnum : (3918 : ℝ) / 10 ^ 7 + 8 / 10 ^ 7 ≤
        (3.14159265358979323846 / 2) * (1 / 4000) := by norm_num
    linarith
  have hxpi : |float_radians pt period - Real.pi / 2| ≤ Real.pi := by
    rw [abs_le] at hr ⊢
    constructor <;> linarith [hr.1, hr.2]
  have hcos : Real.sin (float_radians pt period) =
      Real.cos (float_radians pt period - Real.pi / 2) := (Real.cos_sub_pi_div_two _).symm
  have hup := Real.cos_le_one_sub_mul_cos_sq hxpi
  have hsq : (3918 / 10 ^ 7 : ℝ) ^ 2 ≤ (float_radians pt period - Real.pi / 2) ^ 2 := by
    rw [← sq_abs (float_radians pt period - Real.pi / 2)]
    exact pow_le_pow_left₀ (by norm_num) hx 2
  apply to_float_to_double_lt_one_sharp
  rw [hcos]
  have hpisq : Real.pi ^ 2 ≤ 3.1416 ^ 2 := pow_le_pow_left₀ (le_of_lt Real.pi_pos)
    (by linarith) 2
  have hpisq0 : 0 < Real.pi ^ 2 := by positivity
  have hcoef : 2 / (3.1416 : ℝ) ^ 2 ≤ 2 / Real.pi ^ 2 :=
    div_le_div_of_nonneg_left (by norm_num) hpisq0 hpisq
  have hprod : 2 / (3.1416 : ℝ) ^ 2 * (3918 / 10 ^ 7 : ℝ) ^ 2 ≤
      2 / Real.pi ^ 2 * (float_radians pt period - Real.pi / 2) ^ 2 :=
    mul_le_mul hcoef hsq (by positivity) (by positivity)
  have hnum : (1 : ℝ) / (2 : ℝ) ^ 25 + 1 / (2 : ℝ) ^ 50 <
      2 / (3.1416 : ℝ) ^ 2 * (3918 / 10 ^ 7 : ℝ) ^ 2 := by norm_num
  linarith

/-- A rounded number is never pi: it is rational. -/
theorem round_nearest_ne_pi (prec : Nat) (x : ℝ) : round_nearest prec x ≠ Real.pi := by
  unfold round_nearest
  split_ifs with h0
  · exact ne_of_lt Real.pi_pos
  · intro h
    apply irrational_pi.ne_rat
      ((round_half_even (x / (2 : ℝ) ^ (Int.log 2 |x| - (prec : Int) + 1)) : ℚ) *
        (2 : ℚ) ^ (Int.log 2 |x| - (prec : Int) + 1))
    rw [← h]
    push_cast
    rfl

/-- In the active phase the rounded sine of the rounded angle is not zero. -/
theorem float_sine_ne_zero (pt period : Int) (hpt : 0 < pt) (hp : 0 < period)
    (hle : 3 * pt ≤ 2 * period) :
    to_float (to_double (Real.sin (float_radians pt period))) ≠ 0 := by
  have hr := abs_le.mp (float_radians_near pt period hpt hp hle)
  obtain ⟨hlo, _⟩ := float_radians_bounds pt period hpt hp
  obtain ⟨h0, hpi⟩ := active_radians_bounds pt period hpt hp hle
  have hpilo := Real.pi_gt_d20
  have hptR : (0 : ℝ) < (pt : ℝ) := by exact_mod_cast hpt
  have hpR : (0 : ℝ) < (period : ℝ) := by exact_mod_cast hp
  have hpos : 0 < float_radians pt period := by
    have : 0 < (3 * Real.pi / 2) * ((pt : ℝ) / (period : ℝ)) * (1 - 1 / 4000000) := by
      have := Real.pi_pos
      positivity
    linarith
  have hne : float_radians pt period ≠ Real.pi := by
    unfold float_radians to_float
    exact round_nearest_ne_pi _ _
  have hsin : Real.sin (float_radians pt period) ≠ 0 := by
    intro hz
    have hz' : Real.sin (float_radians pt period - Real.pi) = 0 := by
      rw [Real.sin_sub_pi, hz, neg_zero]
    have := (Real.sin_eq_zero_iff_of_lt_of_lt (by linarith) (by linarith [hr.2])).mp hz'
    exact hne (by linarith)
  rcases lt_or_gt_of_ne hsin with hneg | hgt
  · exact ne_of_lt (to_float_neg _ (to_double_neg _ hneg))
  · exact ne_of_gt (to_float_pos _ (to_double_pos _ hgt))

/-- In the first half of the period the rounded sine of the rounded angle is
positive. -/
theorem float_sine_pos (pt period : Int) (hpt : 0 < pt) (hp : 0 < period)
    (hle : 2 * pt ≤ period) :
    0 < to_float (to_double (Real.sin (float_radians pt period))) := by
  have hr := abs_le.mp (float_radians_near pt period hpt hp (by omega))
  obtain ⟨hlo, _⟩ := float_radians_bounds pt period hpt hp
  have hpilo := Real.pi_gt_d20
  have hptR : (0 : ℝ) < (pt : ℝ) := by exact_mod_cast hpt
  have hpR : (0 : ℝ) < (period : ℝ) := by exact_mod_cast hp
  have hpos : 0 < float_radians pt period := by
    have : 0 < (3 * Real.pi / 2) * ((pt : ℝ) / (period : ℝ)) * (1 - 1 / 4000000) := by
      have := Real.pi_pos
      positivity
    linarith
  have hq : (pt : ℝ) / (period : ℝ) ≤ 1 / 2 := by
    rw [div_le_iff₀ hpR]
    have : (2 : ℝ) * (pt : ℝ) ≤ (period : ℝ) := by exact_mod_cast hle
    linarith
  have hth : (3 * Real.pi / 2) * ((pt : ℝ) / (period : ℝ)) ≤ 3 * Real.pi / 4 := by
    have := mul_le_mul_of_nonneg_left hq (by positivity : (0 : ℝ) ≤ 3 * Real.pi / 2)
    linarith
  have hlt : float_radians pt period < Real.pi := by linarith [hr.2]
  exact to_float_pos _ (to_double_pos _ (Real.sin_pos_of_pos_of_lt_pi hpos hlt))

/-! ## `color_fader_float` at the end and at the top of the active phase -/

/-- The rounded angle at periodic time 3000 of period 4500 is the `float`
nearest to pi, which is above pi. -/
theorem float_radians_3000_4500 : float_radians 3000 4500 = 13176795 / 2 ^ 22 := by
  unfold float_radians
  rw [three_half_pi_double]
  have h := radians_at_phase_end
  push_cast
  exact h

/-- The sine of the `float` nearest to pi is negative and above `-10^-7`. -/
theorem sin_float_pi_bounds :
    Real.sin (13176795 / 2 ^ 22) < 0 ∧ -(1 / 10 ^ 7) ≤ Real.sin (13176795 / 2 ^ 22) := by
  have hlo := Real.pi_gt_d20
  have hhi := Real.pi_lt_d20
  have hrew : Real.sin (13176795 / 2 ^ 22) =
      -Real.sin ((13176795 / 2 ^ 22 : ℝ) - Real.pi) := by
    rw [Real.sin_sub_pi, neg_neg]
  have hd0 : 0 < (13176795 / 2 ^ 22 : ℝ) - Real.pi := by norm_num; linarith
  have hd1 : (13176795 / 2 ^ 22 : ℝ) - Real.pi < Real.pi := by norm_num; linarith
  have hd2 : (13176795 / 2 ^ 22 : ℝ) - Real.pi ≤ 1 / 10 ^ 7 := by norm_num; linarith
  rw [hrew]
  constructor
  · have := Real.sin_pos_of_pos_of_lt_pi hd0 hd1
    linarith
  · have := Real.sin_le (le_of_lt hd0)
    linarith

/-- At periodic time 3000 of period 4500, the end of the active phase,
`color_fader_float` returns a negative value, no lower than `-10^-6`. -/
theorem color_fader_float_at_3000 (time offset : Int)
    (h : no_int_overflow time offset 4500)
    (hmod : Int.tmod (time + offset) 4500 = 3000) :
    ∃ v : ℝ, color_fader_float time offset 4500 = some v ∧ v < 0 ∧ -(1 / 10 ^ 6) ≤ v := by
  have hact := color_fader_float_active time offset 4500 (by decide) h (by omega) (by omega)
  rw [hmod, float_radians_3000_4500] at hact
  obtain ⟨hneg, hlow⟩ := sin_float_pi_bounds
  refine ⟨_, hact, to_float_neg _ (to_double_neg _ hneg), ?_⟩
  have herr := abs_le.mp (to_float_to_double_err (Real.sin (13176795 / 2 ^ 22)))
  have habs : |Real.sin (13176795 / 2 ^ 22)| ≤ 1 / 10 ^ 7 := by
    rw [abs_of_neg hneg]
    linarith
  have hdiv : |Real.sin (13176795 / 2 ^ 22)| / 10 ^ 7 ≤ 1 / 10 ^ 7 / 10 ^ 7 :=
    div_le_div_of_nonneg_right habs (by positivity)
  have hnum : (1 : ℝ) / 10 ^ 7 / 10 ^ 7 + 1 / 10 ^ 7 ≤ 1 / 10 ^ 6 := by norm_num
  linarith [herr.1]

/-- With period > 0 and no overflow, `color_fader_float` returns exactly 1
whenever the truncated remainder is within one part in 10000 of a third of the
period. -/
theorem color_fader_float_one_of_near (time offset period : Int) (hp : 0 < period)
    (h : no_int_overflow time offset period)
    (hnear : 10000 * |3 * Int.tmod (time + offset) period - period| ≤ period) :
    color_fader_float time offset period = some 1 := by
  have hpt : 0 < Int.tmod (time + offset) period := by
    rcases abs_cases (3 * Int.tmod (time + offset) period - period) with ⟨h1, _⟩ | ⟨h1, _⟩ <;>
      omega
  have hle : 3 * Int.tmod (time + offset) period ≤ 2 * period := by
    rcases abs_cases (3 * Int.tmod (time + offset) period - period) with ⟨h1, _⟩ | ⟨h1, _⟩ <;>
      omega
  rw [color_fader_float_active time offset period hp h hpt hle,
    float_sine_eq_one _ period hp hnear]

/-- With period > 0 and no overflow, `color_fader_float` returns 1 only when
the truncated remainder is within one part in 4000 of a third of the period. -/
theorem color_fader_float_near_of_one (time offset period : Int) (hp : 0 < period)
    (h : no_int_overflow time offset period)
    (hone : color_fader_float time offset period = some 1) :
    4000 * |3 * Int.tmod (time + offset) period - period| ≤ period := by
  rw [color_fader_float_eq time offset period (by omega) h] at hone
  by_cases hact : 0 < Int.tmod (time + offset) period ∧
      Int.tmod (time + offset) period ≤ Int.tdiv (2 * period) 3
  · rw [if_pos hact] at hone
    obtain ⟨_, hle⟩ := active_phase_bounds (time + offset) period hact
    by_contra hfar
    have hlt := float_sine_lt_one _ period hact.1 hp hle (by omega)
    rw [Option.some.inj hone] at hlt
    exact lt_irrefl 1 hlt
  · rw [if_neg hact] at hone
    have h01 : (0 : ℝ) = 1 := Option.some.inj hone
    exact absurd h01 zero_ne_one

/-! ## Claims on `color_fader` in floating point -/

/-- Counterexample to C1: at time 3000 with offset 0 and period 4500 the angle
is the `float` nearest to pi, which is above pi, so `color_fader_float` returns
a negative value, outside `[0, 1]`. -/
theorem color_fader_float_negative :
    (4500 : Int) ≠ 0 ∧ no_int_overflow 3000 0 4500 ∧
      ∃ v : ℝ, color_fader_float 3000 0 4500 = some v ∧ v < 0 := by
  obtain ⟨v, hv, hneg, _⟩ := color_fader_float_at_3000 3000 0 (by decide) (by decide)
  exact ⟨by decide, by decide, v, hv, hneg⟩

/-- C1 (amended): for every integer time, offset and period with period != 0
and no integer overflow, `color_fader_float` returns a value in the closed
interval `[-10^-6, 1]`. -/
theorem color_fader_float_range (time offset period : Int) (hp : period ≠ 0)
    (h : no_int_overflow time offset period) :
    ∃ v : ℝ, color_fader_float time offset period = some v ∧
      -(1 / 10 ^ 6) ≤ v ∧ v ≤ 1 := by
  rw [color_fader_float_eq time offset period hp h]
  by_cases hact : 0 < Int.tmod (time + offset) period ∧
      Int.tmod (time + offset) period ≤ Int.tdiv (2 * period) 3
  · rw [if_pos hact]
    obtain ⟨hpos, hle⟩ := active_phase_bounds (time + offset) period hact
    obtain ⟨hnear, hone⟩ :=
      float_sine_near (Int.tmod (time + offset) period) period hact.1 hpos hle
    obtain ⟨h0, hpi⟩ := active_radians_bounds _ _ hact.1 hpos hle
    have hsin := Real.sin_nonneg_of_nonneg_of_le_pi h0 hpi
    refine ⟨_, rfl, ?_, hone⟩
    linarith [(abs_le.mp hnear).1]
  · rw [if_neg hact]
    exact ⟨0, rfl, by norm_num, by norm_num⟩

/-- Witness for C1 (amended) at the first channel of `idle_handling` one second
in: time 1000, offset 0, period 4500. -/
theorem color_fader_float_range_witness :
    (4500 : Int) ≠ 0 ∧ no_int_overflow 1000 0 4500 ∧
      ∃ v : ℝ, color_fader_float 1000 0 4500 = some v ∧ -(1 / 10 ^ 6) ≤ v ∧ v ≤ 1 :=
  ⟨by decide, by decide, color_fader_float_range 1000 0 4500 (by decide) (by decide)⟩

/-- Counterexample to C11: at time 0 with offset 3000 and period 4500 the
periodic time is 3000, the end of the active phase, and `color_fader_float`
returns a negative value, not 1.0. -/
theorem color_fader_float_phase_end_not_one :
    (0 : Int) < 4500 ∧ (4500 : Int) % 3 = 0 ∧ Int.tmod (0 + 3000) 4500 = 2 * 4500 / 3 ∧
      (∃ v : ℝ, color_fader_float 0 3000 4500 = some v ∧ v < 0) ∧
      color_fader_float 0 3000 4500 ≠ some 1 := by
  obtain ⟨v, hv, hneg, _⟩ := color_fader_float_at_3000 0 3000 (by decide) (by decide)
  refine ⟨by decide, by decide, by decide, ⟨v, hv, hneg⟩, ?_⟩
  rw [hv]
  intro h1
  have h2 : v = 1 := Option.some.inj h1
  linarith

/-- C11 (amended): within the active phase the intensity is a sine arch that
reaches 1.0 in the middle of the phase and is back near 0 at the phase
boundary: for every period > 0 divisible by 3 (no integer overflow),
`color_fader_float` returns exactly 1.0 when the periodic time equals
`period / 3`, and a value within `10^-6` of 0 when it equals `2 * period / 3`
(the end of the active phase). -/
theorem color_fader_float_sine_arch (time offset period : Int) (hp : 0 < period)
    (h3 : period % 3 = 0) (h : no_int_overflow time offset period) :
    (Int.tmod (time + offset) period = period / 3 →
      color_fader_float time offset period = some 1) ∧
    (Int.tmod (time + offset) period = 2 * period / 3 →
      ∃ v : ℝ, color_fader_float time offset period = some v ∧ |v| ≤ 1 / 10 ^ 6) := by
  constructor
  · intro hpt
    have hzero : 3 * Int.tmod (time + offset) period - period = 0 := by omega
    apply color_fader_float_one_of_near time offset period hp h
    rw [hzero]
    simp only [abs_zero, mul_zero]
    omega
  · intro hpt
    obtain ⟨v, w, hv, hw, hvw, _⟩ := color_fader_float_near time offset period (by omega) h
    rw [color_fader_at_two_thirds time offset period hp h h3 hpt] at hw
    have hw0 : (0 : ℝ) = w := Option.some.inj hw
    rw [← hw0, sub_zero] at hvw
    exact ⟨v, hv, hvw⟩

/-- Witness for C11 (amended): period 4500, where time 1500 gives 1.0. -/
theorem color_fader_float_sine_arch_witness :
    (0 : Int) < 4500 ∧ (4500 : Int) % 3 = 0 ∧ no_int_overflow 1500 0 4500 ∧
      Int.tmod (1500 + 0) 4500 = 4500 / 3 ∧ color_fader_float 1500 0 4500 = some 1 :=
  ⟨by decide, by decide, by decide, by decide,
    (color_fader_float_sine_arch 1500 0 4500 (by decide) (by decide) (by decide)).1
      (by decide)⟩

/-- Counterexample to C12: at time 1500 with offset 1500 and period 4500, a
period divisible by 3 at periodic time `2 * 4500 / 3`, `color_fader_float`
returns a negative value, not exactly 0. -/
theorem color_fader_float_phase_end_not_zero :
    (2 : Int) ≤ 4500 ∧ (4500 : Int) % 3 = 0 ∧
      Int.tmod (1500 + 1500) 4500 = 2 * 4500 / 3 ∧
      (∃ v : ℝ, color_fader_float 1500 1500 4500 = some v ∧ v < 0) ∧
      color_fader_float 1500 1500 4500 ≠ some 0 := by
  obtain ⟨v, hv, hneg, _⟩ := color_fader_float_at_3000 1500 1500 (by decide) (by decide)
  refine ⟨by decide, by decide, by decide, ⟨v, hv, hneg⟩, ?_⟩
  rw [hv]
  intro h1
  have h2 : v = 0 := Option.some.inj h1
  linarith

/-- C12 (amended): `color_fader_float` approaches 0 at both ends of the active
phase: for every period p >= 2 (no integer overflow) the output at the first
active tick (periodic time 1) is positive and at most `3 pi / (2 p) + 10^-6`,
the output at the last active tick (periodic time floor(2p/3)) is nonzero,
at least `-10^-6` and at most `3 pi / (2 p) + 10^-6`, and when p is divisible
by 3 the output at periodic time 2p/3 is nonzero and within `10^-6` of 0, the
dead-phase value. -/
theorem color_fader_float_small_at_phase_ends (time offset period : Int)
    (hp : 2 ≤ period) (h : no_int_overflow time offset period) :
    (Int.tmod (time + offset) period = 1 →
      ∃ v : ℝ, color_fader_float time offset period = some v ∧
        0 < v ∧ v ≤ 3 * Real.pi / (2 * (period : ℝ)) + 1 / 10 ^ 6) ∧
    (Int.tmod (time + offset) period = Int.tdiv (2 * period) 3 →
      ∃ v : ℝ, color_fader_float time offset period = some v ∧
        v ≠ 0 ∧ -(1 / 10 ^ 6) ≤ v ∧ v ≤ 3 * Real.pi / (2 * (period : ℝ)) + 1 / 10 ^ 6) ∧
    (period % 3 = 0 → Int.tmod (time + offset) period = 2 * period / 3 →
      ∃ v : ℝ, color_fader_float time offset period = some v ∧
        v ≠ 0 ∧ |v| ≤ 1 / 10 ^ 6) := by
  have hq : Int.tdiv (2 * period) 3 = 2 * period / 3 :=
    Int.tdiv_eq_ediv (by omega) (by omega)
  refine ⟨?_, ?_, ?_⟩
  · intro hpt
    obtain ⟨w, hw, _, hwb⟩ := color_fader_first_tick time offset period hp h hpt
    have hpos : 0 < Int.tmod (time + offset) period := by omega
    have hle : 3 * Int.tmod (time + offset) period ≤ 2 * period := by omega
    rw [color_fader_active time offset period (by omega) h hpos hle] at hw
    have hsin := Option.some.inj hw
    obtain ⟨hnear, _⟩ :=
      float_sine_near (Int.tmod (time + offset) period) period hpos (by omega) hle
    refine ⟨_, color_fader_float_active time offset period (by omega) h hpos hle,
      float_sine_pos _ period hpos (by omega) (by omega), ?_⟩
    rw [hsin] at hnear
    linarith [(abs_le.mp hnear).2]
  · intro hpt
    obtain ⟨w, hw, hw0, hwb⟩ := color_fader_last_tick time offset period hp h hpt
    have hpos : 0 < Int.tmod (time + offset) period := by omega
    have hle : 3 * Int.tmod (time + offset) period ≤ 2 * period := by omega
    rw [color_fader_active time offset period (by omega) h hpos hle] at hw
    have hsin := Option.some.inj hw
    obtain ⟨hnear, _⟩ :=
      float_sine_near (Int.tmod (time + offset) period) period hpos (by omega) hle
    refine ⟨_, color_fader_float_active time offset period (by omega) h hpos hle,
      float_sine_ne_zero _ period hpos (by omega) hle, ?_, ?_⟩
    · rw [hsin] at hnear
      linarith [(abs_le.mp hnear).1]
    · rw [hsin] at hnear
      linarith [(abs_le.mp hnear).2]
  · intro h3 hpt
    have hpos : 0 < Int.tmod (time + offset) period := by omega
    have hle : 3 * Int.tmod (time + offset) period ≤ 2 * period := by omega
    have hw := color_fader_at_two_thirds time offset period (by omega) h h3 hpt
    rw [color_fader_active time offset period (by omega) h hpos hle] at hw
    have hsin := Option.some.inj hw
    obtain ⟨hnear, _⟩ :=
      float_sine_near (Int.tmod (time + offset) period) period hpos (by omega) hle
    refine ⟨_, color_fader_float_active time offset period (by omega) h hpos hle,
      float_sine_ne_zero _ period hpos (by omega) hle, ?_⟩
    rw [hsin, sub_zero] at hnear
    exact hnear

/-- Witness for C12 (amended): period 4500 at its last active tick, time 3000,
which is also periodic time `2 * 4500 / 3`. -/
theorem color_fader_float_small_at_phase_ends_witness :
    (2 : Int) ≤ 4500 ∧ no_int_overflow 3000 0 4500 ∧
      Int.tmod (3000 + 0) 4500 = Int.tdiv (2 * 4500) 3 ∧
      (∃ v : ℝ, color_fader_float 3000 0 4500 = some v ∧ v ≠ 0 ∧ -(1 / 10 ^ 6) ≤ v ∧
        v ≤ 3 * Real.pi / (2 * ((4500 : Int) : ℝ)) + 1 / 10 ^ 6) ∧
      (∃ v : ℝ, color_fader_float 3000 0 4500 = some v ∧ v ≠ 0 ∧ |v| ≤ 1 / 10 ^ 6) :=
  ⟨by decide, by decide, by decide,
    (color_fader_float_small_at_phase_ends 3000 0 4500 (by decide) (by decide)).2.1
      (by decide),
    (color_fader_float_small_at_phase_ends 3000 0 4500 (by decide) (by decide)).2.2
      (by decide) (by decide)⟩

/-- Counterexample to C23: with period 10000 and periodic time 3333, where
`3 * 3333` is not the period, `color_fader_float` returns exactly 1: the sine
of the rounded angle is within half a unit in the last place of 1. -/
theorem color_fader_float_one_off_third :
    (0 : Int) < 10000 ∧ (0 : Int) ≤ 3333 + 0 ∧ no_int_overflow 3333 0 10000 ∧
      color_fader_float 3333 0 10000 = some 1 ∧
      3 * ((3333 + 0 : Int) % 10000) ≠ 10000 ∧
      3 * Int.tmod (3333 + 0) 10000 ≠ 10000 :=
  ⟨by decide, by decide, by decide,
    color_fader_float_one_of_near 3333 0 10000 (by decide) (by decide) (by decide),
    by decide, by decide⟩

/-- C23 (amended): `color_fader_float` attains its maximum 1 one third of the
way through the period and only near it: for every period > 0 and every time,
offset with `time + offset >= 0` (no integer overflow), with pt the periodic
time `(time + offset) mod period` (the source's `%`, which here is the
mathematical remainder), `color_fader_float` returns 1 if `3 * pt = period`,
and more generally if `10000 * |3 * pt - period| <= period`; and if it returns 1
then `4000 * |3 * pt - period| <= period`. -/
theorem color_fader_float_max_near_third (time offset period : Int) (hp : 0 < period)
    (hs : 0 ≤ time + offset) (h : no_int_overflow time offset period) :
    Int.tmod (time + offset) period = (time + offset) % period ∧
    (3 * ((time + offset) % period) = period →
      color_fader_float time offset period = some 1) ∧
    (10000 * |3 * ((time + offset) % period) - period| ≤ period →
      color_fader_float time offset period = some 1) ∧
    (color_fader_float time offset period = some 1 →
      4000 * |3 * ((time + offset) % period) - period| ≤ period) := by
  have hmod : Int.tmod (time + offset) period = (time + offset) % period :=
    Int.tmod_eq_emod hs (by omega)
  refine ⟨hmod, ?_, ?_, ?_⟩
  · intro h3
    apply color_fader_float_one_of_near time offset period hp h
    rw [hmod, h3, sub_self]
    simp only [abs_zero, mul_zero]
    omega
  · intro hnear
    apply color_fader_float_one_of_near time offset period hp h
    rw [hmod]
    exact hnear
  · intro hone
    rw [← hmod]
    exact color_fader_float_near_of_one time offset period hp h hone

/-- Witness for C23 (amended), the example of the claim:
`color_fader(1500, 0, 4500) = 1`. -/
theorem color_fader_float_max_near_third_witness :
    (0 : Int) < 4500 ∧ (0 : Int) ≤ 1500 + 0 ∧ no_int_overflow 1500 0 4500 ∧
      color_fader_float 1500 0 4500 = some 1 :=
  ⟨by decide, by decide, by decide,
    (color_fader_float_max_near_third 1500 0 4500 (by decide) (by decide)
      (by decide)).2.1 (by decide)⟩
